import Mathlib

/-!
Verification of the embroidery container codec.

The repository contains two scripts sharing a custom flat binary container:
read.py (main) encodes a stitch list and a thread list into bytes
(stitch count as u32, then 12 bytes per stitch as three i32, then the u32
byte length of a UTF-8 JSON array of thread dictionaries, then those JSON
bytes), and write.py (main) decodes such bytes back.  This file embeds both
directions shallowly: bytes are lists of naturals below 256, machine
integers are Nat or Int with explicit reduction modulo 2^32, Python
exceptions become constructors of an error type, and the behaviour of the
Python json and codec libraries used by the scripts (json.dumps with its
default separators and ensure_ascii escaping, json.loads, str.encode and
bytes.decode for UTF-8) is embedded from their documented semantics.  The
one spot where the model is coarser than CPython: json.loads accepts a
lone surrogate escape inside a string literal and produces an unpaired
surrogate code unit; such strings are not representable as Lean strings,
so the embedded reader rejects them.  No claim in scope depends on that
corner.
-/

namespace EmbroideryTools

/-- Python exception kinds reachable in the two scripts, named after the
error taxonomy of the design: a struct.error raised by unpack on a short
read is the truncated-input kind, a UnicodeDecodeError or JSONDecodeError
while interpreting the metadata blob is the malformed-metadata kind, an
AttributeError (calling .get on a non-dictionary) and a TypeError
(iterating a non-iterable) keep their Python names, and a struct.error
raised by pack on an out-of-range argument is the pack kind. -/
inductive PyError where
  | truncatedInputError
  | malformedMetadataError
  | attributeError
  | typeError
  | packError
deriving DecidableEq

mutual
/-- JSON values as produced by Python's json module: null, booleans,
integers, non-integral numeric literals (kept as their raw token text,
never inspected), strings, arrays and objects.  Objects keep their
key-value pairs in textual order, duplicates included; lookup takes the
last binding, matching how dict construction overwrites earlier keys. -/
inductive Json where
  | null
  | bool (b : Bool)
  | num (n : Int)
  | flt (s : String)
  | str (s : String)
  | arr (xs : JsonList)
  | obj (kvs : JsonObj)
/-- A list of JSON values (spine of a JSON array). -/
inductive JsonList where
  | nil
  | cons (hd : Json) (tl : JsonList)
/-- An association list of string keys and JSON values (a JSON object). -/
inductive JsonObj where
  | nil
  | cons (k : String) (v : Json) (tl : JsonObj)
end

/-- Conversion of a JSON array spine to an ordinary list. -/
def JsonList.toList : JsonList → List Json
  | .nil => []
  | .cons x tl => x :: tl.toList

/-- Conversion of an ordinary list to a JSON array spine. -/
def jsonListOfList : List Json → JsonList
  | [] => .nil
  | x :: xs => .cons x (jsonListOfList xs)

/-- Number of key-value pairs of a JSON object. -/
def objLength : JsonObj → Nat
  | .nil => 0
  | .cons _ _ tl => 1 + objLength tl

/-- Number of elements of a JSON array spine. -/
def jsonListLength : JsonList → Nat
  | .nil => 0
  | .cons _ tl => 1 + jsonListLength tl

/-- Keys of a JSON object, in textual order. -/
def objKeys : JsonObj → List String
  | .nil => []
  | .cons k _ tl => k :: objKeys tl

/-- Whether a key occurs in a JSON object. -/
def hasKey : JsonObj → String → Bool
  | .nil, _ => false
  | .cons k' _ tl, k => k' == k || hasKey tl k

/-- Embedding of thread_dict.get(key, None) from write.py: the value of
the last binding of the key (dict construction lets later duplicates win),
or null when the key is absent. -/
def pyDictGet : JsonObj → String → Json
  | .nil, _ => .null
  | .cons k' v tl, k => if hasKey tl k then pyDictGet tl k else if k' == k then v else .null

/-- Appending one binding at the end of a JSON object, as assignment of a
fresh key does on a Python dict. -/
def objSnoc : JsonObj → String → Json → JsonObj
  | .nil, k, v => .cons k v .nil
  | .cons k' v' tl, k, v => .cons k' v' (objSnoc tl k v)

/-- The field set of a pyembroidery thread object as the two scripts use
it: the seven attributes read by thread_to_dict in read.py and assigned by
dict_to_thread in write.py.  Attribute values are arbitrary JSON-shaped
Python values; an absent value is null (Python None). -/
structure Thread where
  color : Json
  description : Json
  catalog_number : Json
  details : Json
  brand : Json
  chart : Json
  weight : Json

/-- The seven metadata keys fixed by both scripts, in the order read.py
writes them. -/
def sevenKeys : List String :=
  ["hex_color", "description", "catalog_number", "details", "brand", "chart", "weight"]

/-- The thread attribute corresponding to a metadata key; null for an
unknown key. -/
def fieldOf (t : Thread) (k : String) : Json :=
  if k = "hex_color" then t.color
  else if k = "description" then t.description
  else if k = "catalog_number" then t.catalog_number
  else if k = "details" then t.details
  else if k = "brand" then t.brand
  else if k = "chart" then t.chart
  else if k = "weight" then t.weight
  else .null

/-- Embedding of thread_to_dict from read.py: the dictionary literal with
the seven fixed keys mapped to the seven thread attributes. -/
def thread_to_dict (t : Thread) : Json :=
  .obj (.cons "hex_color" t.color
    (.cons "description" t.description
      (.cons "catalog_number" t.catalog_number
        (.cons "details" t.details
          (.cons "brand" t.brand
            (.cons "chart" t.chart
              (.cons "weight" t.weight .nil)))))))

/-- Embedding of dict_to_thread from write.py: seven .get calls with a
None default on a dictionary build the thread; calling .get on any
non-dictionary value raises AttributeError. -/
def dict_to_thread (d : Json) : Except PyError Thread :=
  match d with
  | .obj kvs =>
    .ok { color := pyDictGet kvs "hex_color"
          description := pyDictGet kvs "description"
          catalog_number := pyDictGet kvs "catalog_number"
          details := pyDictGet kvs "details"
          brand := pyDictGet kvs "brand"
          chart := pyDictGet kvs "chart"
          weight := pyDictGet kvs "weight" }
  | _ => .error .attributeError

/-- Keys of a JSON object as JSON strings, the sequence Python yields when
iterating a dict. -/
def objKeysJson : JsonObj → List Json
  | .nil => []
  | .cons k _ tl => .str k :: objKeysJson tl

/-- Embedding of Python iteration as used by list(map(f, x)) in write.py:
arrays yield their elements, dicts yield their keys, strings yield their
characters as one-character strings, everything else raises TypeError. -/
def pyIterate : Json → Except PyError (List Json)
  | .arr xs => .ok xs.toList
  | .obj kvs => .ok (objKeysJson kvs)
  | .str s => .ok (s.data.map (fun c => Json.str (String.mk [c])))
  | _ => .error .typeError

/-- Embedding of list(map(dict_to_thread, thread_dicts)) from write.py:
threads are built left to right, the first non-dictionary element aborts
with its error. -/
def mapThreads : List Json → Except PyError (List Thread)
  | [] => .ok []
  | d :: ds =>
    match dict_to_thread d with
    | .error e => .error e
    | .ok t =>
      match mapThreads ds with
      | .error e => .error e
      | .ok ts => .ok (t :: ts)

/-- The decimal digit character for a value below ten. -/
def digitChar (d : Nat) : Char := Char.ofNat (48 + d)

/-- Fuel-driven accumulator loop producing the decimal digits of a
positive natural, most significant first, in front of the accumulator. -/
def natCharsAux : Nat → Nat → List Char → List Char
  | 0, _, acc => acc
  | fuel + 1, n, acc => if n = 0 then acc else natCharsAux fuel (n / 10) (digitChar (n % 10) :: acc)

/-- Decimal digits of a natural number, as Python prints it. -/
def natChars (n : Nat) : List Char :=
  if n = 0 then ['0'] else natCharsAux n n []

/-- Decimal rendering of a Python integer, with a leading minus sign for
negative values, exactly as json.dumps prints int values. -/
def intChars (n : Int) : List Char :=
  if n < 0 then '-' :: natChars (-n).toNat else natChars n.toNat

/-- The lowercase hexadecimal digit character for a value below sixteen,
as Python's \uXXXX escapes print it. -/
def hexDigitChar (d : Nat) : Char :=
  if d < 10 then Char.ofNat (48 + d) else Char.ofNat (87 + d)

/-- Four lowercase hexadecimal digits of a value below 65536, most
significant first. -/
def hex4 (m : Nat) : List Char :=
  [hexDigitChar (m / 4096 % 16), hexDigitChar (m / 256 % 16), hexDigitChar (m / 16 % 16), hexDigitChar (m % 16)]

/-- Embedding of the per-character escaping of json.dumps with its default
ensure_ascii=True: quote, backslash and the five short control escapes get
two-character escapes, printable ASCII stays literal, every other
character in the basic plane becomes one \uXXXX escape, and astral
characters become a surrogate pair of two \uXXXX escapes. -/
def escapeChar (c : Char) : List Char :=
  if c = '"' then ['\\', '"']
  else if c = '\\' then ['\\', '\\']
  else if c = Char.ofNat 8 then ['\\', 'b']
  else if c = Char.ofNat 12 then ['\\', 'f']
  else if c = Char.ofNat 10 then ['\\', 'n']
  else if c = Char.ofNat 13 then ['\\', 'r']
  else if c = Char.ofNat 9 then ['\\', 't']
  else if 32 ≤ c.toNat ∧ c.toNat ≤ 126 then [c]
  else if c.toNat < 65536 then '\\' :: 'u' :: hex4 c.toNat
  else ('\\' :: 'u' :: hex4 (55296 + (c.toNat - 65536) / 1024)) ++
       ('\\' :: 'u' :: hex4 (56320 + (c.toNat - 65536) % 1024))

/-- Escaping of a whole string body, character by character. -/
def escChars : List Char → List Char
  | [] => []
  | c :: r => escapeChar c ++ escChars r

mutual
/-- Embedding of json.dumps with its defaults (separators a comma-space
and a colon-space, sort_keys off, ensure_ascii on): the exact text Python
produces for a JSON value. -/
def dumpJson : Json → List Char
  | .null => "null".data
  | .bool true => "true".data
  | .bool false => "false".data
  | .num n => intChars n
  | .flt s => s.data
  | .str s => '"' :: escChars s.data ++ ['"']
  | .arr xs => '[' :: dumpList xs ++ [']']
  | .obj kvs => '{' :: dumpObj kvs ++ ['}']
/-- Comma-space separated rendering of array elements. -/
def dumpList : JsonList → List Char
  | .nil => []
  | .cons x .nil => dumpJson x
  | .cons x tl => dumpJson x ++ ',' :: ' ' :: dumpList tl
/-- Comma-space separated rendering of object members, each a quoted
escaped key, a colon-space, and the value. -/
def dumpObj : JsonObj → List Char
  | .nil => []
  | .cons k v .nil => ('"' :: escChars k.data ++ ['"']) ++ ':' :: ' ' :: dumpJson v
  | .cons k v tl =>
    (('"' :: escChars k.data ++ ['"']) ++ ':' :: ' ' :: dumpJson v) ++ ',' :: ' ' :: dumpObj tl
end

/-- UTF-8 bytes of one character. -/
def charUtf8 (c : Char) : List Nat :=
  let n := c.toNat
  if n < 128 then [n]
  else if n < 2048 then [192 + n / 64, 128 + n % 64]
  else if n < 65536 then [224 + n / 4096, 128 + n / 64 % 64, 128 + n % 64]
  else [240 + n / 262144, 128 + n / 4096 % 64, 128 + n / 64 % 64, 128 + n % 64]

/-- Embedding of str.encode("utf-8") on a list of characters. -/
def utf8Encode : List Char → List Nat
  | [] => []
  | c :: r => charUtf8 c ++ utf8Encode r

mutual
/-- Embedding of bytes.decode("utf-8") in its default strict mode:
rejects overlong forms, surrogates and values beyond the Unicode range,
returning no result where CPython raises UnicodeDecodeError. -/
def utf8Decode : List Nat → Option (List Char)
  | [] => some []
  | b :: bs =>
    if b < 128 then (utf8Decode bs).map (fun cs => Char.ofNat b :: cs)
    else if 194 ≤ b ∧ b ≤ 223 then utf8Tail1 b bs
    else if 224 ≤ b ∧ b ≤ 239 then utf8Tail2 b bs
    else if 240 ≤ b ∧ b ≤ 244 then utf8Tail3 b bs
    else none
/-- One continuation byte of a two-byte UTF-8 form. -/
def utf8Tail1 (b : Nat) : List Nat → Option (List Char)
  | b2 :: bs2 =>
    if 128 ≤ b2 ∧ b2 ≤ 191 then
      (utf8Decode bs2).map (fun cs => Char.ofNat ((b - 192) * 64 + (b2 - 128)) :: cs)
    else none
  | [] => none
/-- Two continuation bytes of a three-byte UTF-8 form, with the
second-byte ranges that exclude overlong forms and surrogates. -/
def utf8Tail2 (b : Nat) : List Nat → Option (List Char)
  | b2 :: b3 :: bs3 =>
    if (if b = 224 then 160 ≤ b2 ∧ b2 ≤ 191
        else if b = 237 then 128 ≤ b2 ∧ b2 ≤ 159
        else 128 ≤ b2 ∧ b2 ≤ 191) ∧ 128 ≤ b3 ∧ b3 ≤ 191 then
      (utf8Decode bs3).map
        (fun cs => Char.ofNat ((b - 224) * 4096 + (b2 - 128) * 64 + (b3 - 128)) :: cs)
    else none
  | _ => none
/-- Three continuation bytes of a four-byte UTF-8 form, with the
second-byte ranges that exclude overlong forms and values beyond the
Unicode range. -/
def utf8Tail3 (b : Nat) : List Nat → Option (List Char)
  | b2 :: b3 :: b4 :: bs4 =>
    if (if b = 240 then 144 ≤ b2 ∧ b2 ≤ 191
        else if b = 244 then 128 ≤ b2 ∧ b2 ≤ 143
        else 128 ≤ b2 ∧ b2 ≤ 191) ∧ 128 ≤ b3 ∧ b3 ≤ 191 ∧ 128 ≤ b4 ∧ b4 ≤ 191 then
      (utf8Decode bs4).map
        (fun cs =>
          Char.ofNat ((b - 240) * 262144 + (b2 - 128) * 4096 + (b3 - 128) * 64 + (b4 - 128)) :: cs)
    else none
  | _ => none
end

/-- JSON whitespace, the four characters json.loads skips between
tokens. -/
def isJsonWs (c : Char) : Bool :=
  c == ' ' || c == Char.ofNat 9 || c == Char.ofNat 10 || c == Char.ofNat 13

/-- Dropping leading JSON whitespace. -/
def skipWs (cs : List Char) : List Char := cs.dropWhile isJsonWs

/-- Value of one hexadecimal digit character, either case. -/
def hexVal (c : Char) : Option Nat :=
  if 48 ≤ c.toNat ∧ c.toNat ≤ 57 then some (c.toNat - 48)
  else if 97 ≤ c.toNat ∧ c.toNat ≤ 102 then some (c.toNat - 87)
  else if 65 ≤ c.toNat ∧ c.toNat ≤ 70 then some (c.toNat - 55)
  else none

mutual
/-- Embedding of the json.loads string scanner in strict mode, entered
just after the opening quote: literal characters must be at least 0x20, a
backslash hands over to the escape reader, and a closing quote ends the
string.  Returns the string body and the input after the closing quote. -/
def parseStr : List Char → Option (List Char × List Char)
  | [] => none
  | c :: rest =>
    if c = '"' then some ([], rest)
    else if c = '\\' then parseEsc rest
    else if c.toNat < 32 then none
    else (parseStr rest).map (fun p => (c :: p.1, p.2))
/-- The escape reader after a backslash: one of the eight short escapes,
or a \uXXXX escape; a high surrogate value hands over to the low-surrogate
reader, and a lone low surrogate is rejected (CPython would produce an
unpaired surrogate, which no Lean string can hold). -/
def parseEsc : List Char → Option (List Char × List Char)
  | '"' :: r => (parseStr r).map (fun p => ('"' :: p.1, p.2))
  | '\\' :: r => (parseStr r).map (fun p => ('\\' :: p.1, p.2))
  | '/' :: r => (parseStr r).map (fun p => ('/' :: p.1, p.2))
  | 'b' :: r => (parseStr r).map (fun p => (Char.ofNat 8 :: p.1, p.2))
  | 'f' :: r => (parseStr r).map (fun p => (Char.ofNat 12 :: p.1, p.2))
  | 'n' :: r => (parseStr r).map (fun p => (Char.ofNat 10 :: p.1, p.2))
  | 'r' :: r => (parseStr r).map (fun p => (Char.ofNat 13 :: p.1, p.2))
  | 't' :: r => (parseStr r).map (fun p => (Char.ofNat 9 :: p.1, p.2))
  | 'u' :: h1 :: h2 :: h3 :: h4 :: r =>
    match hexVal h1, hexVal h2, hexVal h3, hexVal h4 with
    | some v1, some v2, some v3, some v4 =>
      let u := 4096 * v1 + 256 * v2 + 16 * v3 + v4
      if 55296 ≤ u ∧ u ≤ 56319 then parseLow u r
      else if 56320 ≤ u ∧ u ≤ 57343 then none
      else (parseStr r).map (fun p => (Char.ofNat u :: p.1, p.2))
    | _, _, _, _ => none
  | _ => none
/-- The reader for the low half of a surrogate pair, combining it with the
high half into one astral character, as the CPython scanner does. -/
def parseLow (u1 : Nat) : List Char → Option (List Char × List Char)
  | '\\' :: 'u' :: g1 :: g2 :: g3 :: g4 :: r2 =>
    match hexVal g1, hexVal g2, hexVal g3, hexVal g4 with
    | some w1, some w2, some w3, some w4 =>
      let u2 := 4096 * w1 + 256 * w2 + 16 * w3 + w4
      if 56320 ≤ u2 ∧ u2 ≤ 57343 then
        (parseStr r2).map
          (fun p => (Char.ofNat (65536 + 1024 * (u1 - 55296) + (u2 - 56320)) :: p.1, p.2))
      else none
    | _, _, _, _ => none
  | _ => none
end

/-- Left fold turning decimal digit characters into their value. -/
def digitsVal : Nat → List Char → Nat
  | acc, [] => acc
  | acc, c :: r => digitsVal (acc * 10 + (c.toNat - 48)) r

/-- Scanner for the optional fraction part of the JSON number grammar: a
dot followed by at least one digit, otherwise nothing is consumed. -/
def scanFrac (rest : List Char) : List Char × List Char :=
  match rest with
  | c :: r1 =>
    if c = '.' then
      match r1.takeWhile Char.isDigit with
      | [] => ([], rest)
      | ds => ('.' :: ds, r1.dropWhile Char.isDigit)
    else ([], rest)
  | [] => ([], rest)

/-- Scanner for the optional exponent part of the JSON number grammar: an
e of either case, an optional sign, and at least one digit, otherwise
nothing is consumed. -/
def scanExp (rest : List Char) : List Char × List Char :=
  match rest with
  | c :: r1 =>
    if c = 'e' ∨ c = 'E' then
      let sr : List Char × List Char :=
        match r1 with
        | s :: r2 => if s = '+' ∨ s = '-' then ([s], r2) else ([], r1)
        | [] => ([], r1)
      match sr.2.takeWhile Char.isDigit with
      | [] => ([], rest)
      | ds => (c :: sr.1 ++ ds, sr.2.dropWhile Char.isDigit)
    else ([], rest)
  | [] => ([], rest)

/-- Assembly of a scanned number: with no fraction and no exponent the
integer digits give an int (negated under the sign), otherwise the whole
matched text is kept as a float literal. -/
def numFinish (neg : Bool) (ids : List Char) (rest : List Char) : Option (Json × List Char) :=
  let fr := scanFrac rest
  let ex := scanExp fr.2
  if fr.1 = ([] : List Char) ∧ ex.1 = ([] : List Char) then
    let v : Int := Int.ofNat (digitsVal 0 ids)
    some (.num (if neg then -v else v), rest)
  else
    some (.flt (String.mk ((if neg then ['-'] else []) ++ ids ++ fr.1 ++ ex.1)), ex.2)

/-- Integer-part scanner of the JSON number grammar after the optional
sign: a single zero, or a nonzero digit followed by any digits. -/
def parseNumCore (neg : Bool) : List Char → Option (Json × List Char)
  | [] => none
  | c :: r =>
    if c = '0' then numFinish neg ['0'] r
    else if c.isDigit then numFinish neg (c :: r.takeWhile Char.isDigit) (r.dropWhile Char.isDigit)
    else none

/-- Embedding of the number alternative of json.loads, including the
non-standard -Infinity literal the module accepts by default (the number
pattern is tried first, exactly as the Python scanner does; a minus not
followed by a digit can then only start -Infinity). -/
def parseNum : List Char → Option (Json × List Char)
  | [] => none
  | c :: r =>
    if c = '-' then
      if r.take 8 = ['I', 'n', 'f', 'i', 'n', 'i', 't', 'y'] then some (.flt "-Infinity", r.drop 8)
      else parseNumCore true r
    else parseNumCore false (c :: r)

mutual
/-- Embedding of the json.loads value scanner: dispatch on the first
character to a string, array, object, keyword (including the non-standard
NaN and Infinity accepted by default) or number.  The fuel argument only
bounds nesting and element recursion; the top-level entry supplies one
more unit than the input length, which every reachable parse stays
within. -/
def parseVal : Nat → List Char → Option (Json × List Char)
  | 0, _ => none
  | fuel + 1, cs =>
    match cs with
    | [] => none
    | c :: rest =>
      if c = '"' then (parseStr rest).map (fun p => (.str (String.mk p.1), p.2))
      else if c = '[' then
        match skipWs rest with
        | ']' :: r => some (.arr .nil, r)
        | r => (parseElems fuel r).map (fun p => (.arr p.1, p.2))
      else if c = '{' then
        match skipWs rest with
        | '}' :: r => some (.obj .nil, r)
        | r => (parseMembers fuel r).map (fun p => (.obj p.1, p.2))
      else if c = 'n' then
        match rest with
        | 'u' :: 'l' :: 'l' :: r => some (.null, r)
        | _ => none
      else if c = 't' then
        match rest with
        | 'r' :: 'u' :: 'e' :: r => some (.bool true, r)
        | _ => none
      else if c = 'f' then
        match rest with
        | 'a' :: 'l' :: 's' :: 'e' :: r => some (.bool false, r)
        | _ => none
      else if c = 'N' then
        match rest with
        | 'a' :: 'N' :: r => some (.flt "NaN", r)
        | _ => none
      else if c = 'I' then
        match rest with
        | 'n' :: 'f' :: 'i' :: 'n' :: 'i' :: 't' :: 'y' :: r => some (.flt "Infinity", r)
        | _ => none
      else parseNum (c :: rest)
/-- Array elements after the opening bracket and leading whitespace: a
value, then either a comma (more elements) or the closing bracket. -/
def parseElems : Nat → List Char → Option (JsonList × List Char)
  | 0, _ => none
  | fuel + 1, cs =>
    match parseVal fuel cs with
    | none => none
    | some (v, r1) =>
      match skipWs r1 with
      | ',' :: r2 =>
        match parseElems fuel (skipWs r2) with
        | some (vs, r3) => some (.cons v vs, r3)
        | none => none
      | ']' :: r2 => some (.cons v .nil, r2)
      | _ => none
/-- Object members after the opening brace and leading whitespace: a
quoted key, a colon, a value, then either a comma (more members) or the
closing brace. -/
def parseMembers : Nat → List Char → Option (JsonObj × List Char)
  | 0, _ => none
  | fuel + 1, cs =>
    match cs with
    | '"' :: rest =>
      match parseStr rest with
      | none => none
      | some (ks, r1) =>
        match skipWs r1 with
        | ':' :: r2 =>
          match parseVal fuel (skipWs r2) with
          | none => none
          | some (v, r3) =>
            match skipWs r3 with
            | ',' :: r4 =>
              match parseMembers fuel (skipWs r4) with
              | some (ms, r5) => some (.cons (String.mk ks) v ms, r5)
              | none => none
            | '}' :: r4 => some (.cons (String.mk ks) v .nil, r4)
            | _ => none
        | _ => none
    | _ => none
end

/-- Embedding of json.loads on a decoded text: skip leading whitespace,
scan one value, skip trailing whitespace, and reject leftover input. -/
def pyJsonLoads (cs : List Char) : Option Json :=
  let cs1 := skipWs cs
  match parseVal (cs1.length + 1) cs1 with
  | some (j, r) => if skipWs r = [] then some j else none
  | none => none

/-- The metadata bytes interpreted as UTF-8 JSON: the composition of
bytes.decode and json.loads used by write.py. -/
def jsonOfBytes (bs : List Nat) : Option Json :=
  match utf8Decode bs with
  | some cs => pyJsonLoads cs
  | none => none

/-- Embedding of struct.pack of one unsigned 32-bit integer in the
little-endian layout both scripts use: four bytes, least significant
first; an argument outside the unsigned range raises struct.error. -/
def packU32 (n : Nat) : Except PyError (List Nat) :=
  if n < 4294967296 then
    .ok [n % 256, (n >>> 8) % 256, (n >>> 16) % 256, (n >>> 24) % 256]
  else .error .packError

/-- Embedding of struct.pack of one signed 32-bit integer: the two's
complement representative modulo 2^32, written as four little-endian
bytes; an argument outside the signed range raises struct.error. -/
def packI32 (x : Int) : Except PyError (List Nat) :=
  if -2147483648 ≤ x ∧ x < 2147483648 then
    let u := (x % 4294967296).toNat
    .ok [u % 256, (u >>> 8) % 256, (u >>> 16) % 256, (u >>> 24) % 256]
  else .error .packError

/-- Embedding of the stitch-writing loop of read.py: each row is packed
as three signed 32-bit integers, and the first out-of-range component
aborts with struct.error. -/
def packStitches : List (Int × Int × Int) → Except PyError (List Nat)
  | [] => .ok []
  | s :: tl =>
    match packI32 s.1 with
    | .error e => .error e
    | .ok bx =>
      match packI32 s.2.1 with
      | .error e => .error e
      | .ok bby =>
        match packI32 s.2.2 with
        | .error e => .error e
        | .ok bc =>
          match packStitches tl with
          | .error e => .error e
          | .ok btl => .ok (bx ++ bby ++ bc ++ btl)

/-- Embedding of struct.unpack of one unsigned 32-bit little-endian
integer from the front of the byte stream; fewer than four bytes raise
struct.error, the truncated-input kind. -/
def unpackU32 : List Nat → Except PyError (Nat × List Nat)
  | b0 :: b1 :: b2 :: b3 :: rest => .ok (b0 + 256 * b1 + 65536 * b2 + 16777216 * b3, rest)
  | _ => .error .truncatedInputError

/-- Sign interpretation of a 32-bit word, as struct.unpack applies to a
signed field. -/
def toI32 (u : Nat) : Int :=
  if u < 2147483648 then (u : Int) else (u : Int) - 4294967296

/-- Embedding of struct.unpack of one signed 32-bit little-endian integer
from the front of the byte stream. -/
def unpackI32 : List Nat → Except PyError (Int × List Nat)
  | b0 :: b1 :: b2 :: b3 :: rest => .ok (toI32 (b0 + 256 * b1 + 65536 * b2 + 16777216 * b3), rest)
  | _ => .error .truncatedInputError

/-- Embedding of struct.unpack("iii", f.read(12)) from write.py: three
signed 32-bit little-endian integers; a short read raises struct.error. -/
def unpackStitch (bs : List Nat) : Except PyError ((Int × Int × Int) × List Nat) :=
  match unpackI32 bs with
  | .error e => .error e
  | .ok (x, r1) =>
    match unpackI32 r1 with
    | .error e => .error e
    | .ok (y, r2) =>
      match unpackI32 r2 with
      | .error e => .error e
      | .ok (c, r3) => .ok ((x, y, c), r3)

/-- Embedding of the stitch-reading loop of write.py: the declared number
of rows is read, one row at a time. -/
def readStitches : Nat → List Nat → Except PyError (List (Int × Int × Int) × List Nat)
  | 0, bs => .ok ([], bs)
  | n + 1, bs =>
    match unpackStitch bs with
    | .error e => .error e
    | .ok (s, r) =>
      match readStitches n r with
      | .error e => .error e
      | .ok (st, r2) => .ok (s :: st, r2)

/-- The little-endian four-byte layout of an unsigned 32-bit integer, as
the design document states it; the refinement theorems compare the packing
code against this description. -/
def u32le (n : Nat) : List Nat :=
  [n % 256, n / 256 % 256, n / 65536 % 256, n / 16777216 % 256]

/-- The little-endian four-byte layout of a signed 32-bit integer in two's
complement, as the design document states it. -/
def i32le (x : Int) : List Nat :=
  u32le ((x % 4294967296).toNat)

/-- The layout of one stitch, three signed fields with no padding, as the
design document states it. -/
def stitchBytes (s : Int × Int × Int) : List Nat :=
  i32le s.1 ++ i32le s.2.1 ++ i32le s.2.2

/-- The layout of a whole stitch list, 12 bytes per stitch in order, as
the design document states it. -/
def stitchesBytes : List (Int × Int × Int) → List Nat
  | [] => []
  | s :: tl => stitchBytes s ++ stitchesBytes tl

/-- A stitch component in the signed 32-bit range struct.pack("i", x)
accepts. -/
def inI32 (x : Int) : Prop :=
  -2147483648 ≤ x ∧ x < 2147483648

/-- All three components of a stitch in the signed 32-bit range. -/
def stitchInRange (s : Int × Int × Int) : Prop :=
  inI32 s.1 ∧ inI32 s.2.1 ∧ inI32 s.2.2

instance (x : Int) : Decidable (inI32 x) :=
  inferInstanceAs (Decidable (_ ∧ _))

instance (s : Int × Int × Int) : Decidable (stitchInRange s) :=
  inferInstanceAs (Decidable (_ ∧ _))

/-- The stitch count a byte sequence declares: its first four bytes as an
unsigned little-endian integer, reading absent positions as zero. -/
def declaredCount (bs : List Nat) : Nat :=
  bs.getD 0 0 + 256 * bs.getD 1 0 + 65536 * bs.getD 2 0 + 16777216 * bs.getD 3 0

/-- The JSON text read.py serializes for a thread list: json.dumps of the
list of seven-key dictionaries. -/
def json_dumps_threads (threads : List Thread) : List Char :=
  dumpJson (.arr (jsonListOfList (threads.map thread_to_dict)))

/-- Embedding of the container-writing part of main in read.py: the
stitch count packed as u32, each stitch packed as three i32, the byte
length of the UTF-8 JSON metadata packed as u32, then the metadata bytes;
the packs fail in file order on out-of-range arguments. -/
def embEncode (stitches : List (Int × Int × Int)) (threads : List Thread) :
    Except PyError (List Nat) :=
  let threads_bytes := utf8Encode (json_dumps_threads threads)
  match packU32 stitches.length with
  | .error e => .error e
  | .ok countB =>
    match packStitches stitches with
    | .error e => .error e
    | .ok stitchB =>
      match packU32 threads_bytes.length with
      | .error e => .error e
      | .ok sizeB => .ok (countB ++ stitchB ++ sizeB ++ threads_bytes)

/-- Embedding of the metadata phase of main in write.py: the blob is
decoded as UTF-8 and parsed as JSON (either failure is the
malformed-metadata kind), then iterated and mapped through
dict_to_thread. -/
def decodeMetadata (threads_bytes : List Nat) : Except PyError (List Thread) :=
  match jsonOfBytes threads_bytes with
  | none => .error .malformedMetadataError
  | some j =>
    match pyIterate j with
    | .error e => .error e
    | .ok items => mapThreads items

/-- Embedding of the container-reading part of main in write.py: the
declared row count, that many 12-byte rows, the declared metadata size,
then f.read of that many bytes (silently short at end of file, trailing
bytes ignored) interpreted as UTF-8 JSON metadata. -/
def embDecode (bs : List Nat) : Except PyError (List (Int × Int × Int) × List Thread) :=
  match unpackU32 bs with
  | .error e => .error e
  | .ok (num_rows, bs1) =>
    match readStitches num_rows bs1 with
    | .error e => .error e
    | .ok (stitches, bs2) =>
      match unpackU32 bs2 with
      | .error e => .error e
      | .ok (threads_size, bs3) =>
        match decodeMetadata (bs3.take threads_size) with
        | .error e => .error e
        | .ok threads => .ok (stitches, threads)

/-- Scalar JSON values: the shapes thread attributes take in practice
(absent, boolean, integer or string). -/
def isScalar : Json → Bool
  | .null => true
  | .bool _ => true
  | .num _ => true
  | .str _ => true
  | _ => false

/-- A thread whose seven attributes are all scalar values. -/
def scalarThread (t : Thread) : Bool :=
  isScalar t.color && isScalar t.description && isScalar t.catalog_number &&
    isScalar t.details && isScalar t.brand && isScalar t.chart && isScalar t.weight

/-- A JSON object all of whose values are scalar. -/
def scalarObj : JsonObj → Bool
  | .nil => true
  | .cons _ v tl => isScalar v && scalarObj tl

/-- A JSON array spine whose elements are all objects with scalar
values: the shape of a serialized thread list. -/
def threadObjsList : JsonList → Bool
  | .nil => true
  | .cons x tl =>
    (match x with
     | .obj kvs => scalarObj kvs
     | _ => false) && threadObjsList tl

/-- Whether a JSON value is an object, the only element shape
dict_to_thread accepts. -/
def isObj : Json → Bool
  | .obj _ => true
  | _ => false

/-- Whether a JSON value is not iterable in Python: null, booleans and
numbers have no iterator, so list(map(f, x)) raises TypeError on them. -/
def notIterable : Json → Bool
  | .null => true
  | .bool _ => true
  | .num _ => true
  | .flt _ => true
  | _ => false

/-- A continuation in front of which a decimal integer token ends: empty
input or a character that can extend neither the digits nor a fraction or
exponent part.  The separators and closing brackets the serializer emits
all qualify. -/
def numBoundary : List Char → Bool
  | [] => true
  | c :: _ => !c.isDigit && !(c == '.') && !(c == 'e') && !(c == 'E')

/-- All characters of a list are ASCII. -/
def asciiChars (cs : List Char) : Prop := ∀ c ∈ cs, c.toNat < 128

/-- A recursion budget sufficient for the value scanner on a serialized
array of objects with scalar values: a few units per object plus one per
member, which the serialized text always dominates. -/
def elemsNeed : JsonList → Nat
  | .nil => 0
  | .cons x tl =>
    (match x with
     | .obj kvs => objLength kvs + 3
     | _ => 3) + elemsNeed tl

/-! ## Character and digit lemmas -/

theorem char_ne_of_toNat_ne {c d : Char} (h : c.toNat ≠ d.toNat) : c ≠ d :=
  fun he => h (he ▸ rfl)

theorem digitChar_toNat {d : Nat} (h : d < 10) : (digitChar d).toNat = 48 + d := by
  interval_cases d <;> decide

theorem digitChar_isDigit {d : Nat} (h : d < 10) : (digitChar d).isDigit = true := by
  interval_cases d <;> decide

theorem isDigit_toNat {c : Char} (h : c.isDigit = true) : 48 ≤ c.toNat ∧ c.toNat ≤ 57 := by
  simp only [Char.isDigit, decide_eq_true_eq, Bool.and_eq_true] at h
  exact ⟨h.1, h.2⟩

theorem toNat_isDigit {c : Char} (h1 : 48 ≤ c.toNat) (h2 : c.toNat ≤ 57) : c.isDigit = true := by
  simp only [Char.isDigit, Bool.and_eq_true, decide_eq_true_eq]
  exact ⟨h1, h2⟩

theorem hexVal_hexDigitChar {d : Nat} (h : d < 16) : hexVal (hexDigitChar d) = some d := by
  interval_cases d <;> decide

/-! ## Fixed-width integer lemmas -/

theorem packU32_eq {n : Nat} (h : n < 4294967296) : packU32 n = .ok (u32le n) := by
  simp [packU32, u32le, if_pos h, Nat.shiftRight_eq_div_pow]

theorem unpackU32_u32le (n : Nat) (h : n < 4294967296) (rest : List Nat) :
    unpackU32 (u32le n ++ rest) = .ok (n, rest) := by
  simp only [u32le, List.cons_append, List.nil_append, unpackU32]
  have h5 : n % 256 + 256 * (n / 256 % 256) + 65536 * (n / 65536 % 256) +
      16777216 * (n / 16777216 % 256) = n := by omega
  rw [h5]

theorem packI32_eq {x : Int} (h1 : -2147483648 ≤ x) (h2 : x < 2147483648) :
    packI32 x = .ok (i32le x) := by
  simp [packI32, i32le, u32le, if_pos (And.intro h1 h2), Nat.shiftRight_eq_div_pow]

theorem unpackI32_i32le (x : Int) (h1 : -2147483648 ≤ x) (h2 : x < 2147483648)
    (rest : List Nat) : unpackI32 (i32le x ++ rest) = .ok (x, rest) := by
  simp only [i32le, u32le, List.cons_append, List.nil_append, unpackI32]
  have h3 : 0 ≤ x % 4294967296 := Int.emod_nonneg x (by norm_num)
  have h4 : x % 4294967296 < 4294967296 := Int.emod_lt_of_pos x (by norm_num)
  have hu : (x % 4294967296).toNat % 256 + 256 * ((x % 4294967296).toNat / 256 % 256) +
      65536 * ((x % 4294967296).toNat / 65536 % 256) +
      16777216 * ((x % 4294967296).toNat / 16777216 % 256) = (x % 4294967296).toNat := by
    omega
  rw [hu]
  have hx : toI32 (x % 4294967296).toNat = x := by
    unfold toI32
    have hk : ((x % 4294967296).toNat : Int) = x % 4294967296 := Int.toNat_of_nonneg h3
    split <;> omega
  rw [hx]

theorem unpackU32_short {bs : List Nat} (h : bs.length < 4) :
    unpackU32 bs = .error .truncatedInputError := by
  match bs, h with
  | [], _ => rfl
  | [_], _ => rfl
  | [_, _], _ => rfl
  | [_, _, _], _ => rfl

theorem unpackI32_short {bs : List Nat} (h : bs.length < 4) :
    unpackI32 bs = .error .truncatedInputError := by
  match bs, h with
  | [], _ => rfl
  | [_], _ => rfl
  | [_, _], _ => rfl
  | [_, _, _], _ => rfl

theorem unpackI32_of_le {bs : List Nat} (h : 4 ≤ bs.length) :
    ∃ v, unpackI32 bs = .ok (v, bs.drop 4) := by
  match bs, h with
  | b0 :: b1 :: b2 :: b3 :: rest, _ => exact ⟨_, rfl⟩

theorem unpackStitch_short {bs : List Nat} (h : bs.length < 12) :
    unpackStitch bs = .error .truncatedInputError := by
  unfold unpackStitch
  by_cases h4 : bs.length < 4
  · rw [unpackI32_short h4]
  · obtain ⟨v, hv⟩ := unpackI32_of_le (le_of_not_lt h4)
    rw [hv]
    dsimp only
    have hd4 : (bs.drop 4).length = bs.length - 4 := List.length_drop 4 bs
    by_cases h8 : (bs.drop 4).length < 4
    · rw [unpackI32_short h8]
    · obtain ⟨w, hw⟩ := unpackI32_of_le (le_of_not_lt h8)
      rw [hw]
      dsimp only
      have hd8 : ((bs.drop 4).drop 4).length = bs.length - 8 := by
        rw [List.length_drop, hd4]; omega
      rw [unpackI32_short (by omega)]

theorem unpackStitch_of_le {bs : List Nat} (h : 12 ≤ bs.length) :
    ∃ s, unpackStitch bs = .ok (s, bs.drop 12) := by
  unfold unpackStitch
  have hd4 : (bs.drop 4).length = bs.length - 4 := List.length_drop 4 bs
  have hd8 : ((bs.drop 4).drop 4).length = bs.length - 8 := by
    rw [List.length_drop, hd4]; omega
  obtain ⟨v, hv⟩ := unpackI32_of_le (show 4 ≤ bs.length by omega)
  rw [hv]
  dsimp only
  obtain ⟨w, hw⟩ := unpackI32_of_le (show 4 ≤ (bs.drop 4).length by omega)
  rw [hw]
  dsimp only
  obtain ⟨z, hz⟩ := unpackI32_of_le (show 4 ≤ ((bs.drop 4).drop 4).length by omega)
  rw [hz]
  dsimp only
  refine ⟨(v, w, z), ?_⟩
  rw [List.drop_drop, List.drop_drop]

theorem readStitches_short {n : Nat} {bs : List Nat} (h : bs.length < 12 * n) :
    readStitches n bs = .error .truncatedInputError := by
  induction n generalizing bs with
  | zero => omega
  | succ m ih =>
    unfold readStitches
    by_cases h12 : bs.length < 12
    · rw [unpackStitch_short h12]
    · obtain ⟨s, hs⟩ := unpackStitch_of_le (le_of_not_lt h12)
      rw [hs]
      dsimp only
      rw [ih (show (bs.drop 12).length < 12 * m by rw [List.length_drop]; omega)]

theorem readStitches_of_le {n : Nat} {bs : List Nat} (h : 12 * n ≤ bs.length) :
    ∃ st, readStitches n bs = .ok (st, bs.drop (12 * n)) ∧ st.length = n := by
  induction n generalizing bs with
  | zero => exact ⟨[], by simp [readStitches], rfl⟩
  | succ m ih =>
    unfold readStitches
    obtain ⟨s, hs⟩ := unpackStitch_of_le (show 12 ≤ bs.length by omega)
    rw [hs]
    dsimp only
    obtain ⟨st, hst, hlen⟩ :=
      ih (show 12 * m ≤ (bs.drop 12).length by rw [List.length_drop]; omega)
    rw [hst]
    dsimp only
    refine ⟨s :: st, ?_, by simp [hlen]⟩
    rw [List.drop_drop]
    have h2 : 12 + 12 * m = 12 * (m + 1) := by ring
    rw [h2]

/-! ## Decimal rendering lemmas -/

theorem natCharsAux_eq (fuel : Nat) : ∀ (n : Nat) (acc : List Char), n ≤ fuel →
    natCharsAux fuel n acc = ((Nat.digits 10 n).reverse.map digitChar) ++ acc := by
  induction fuel with
  | zero =>
    intro n acc h
    interval_cases n
    simp [natCharsAux]
  | succ f ih =>
    intro n acc h
    unfold natCharsAux
    by_cases hn : n = 0
    · subst hn; simp
    · rw [if_neg hn]
      rw [ih (n / 10) _ (by
        have := Nat.div_lt_self (Nat.pos_of_ne_zero hn) (by norm_num : (1 : Nat) < 10)
        omega)]
      rw [Nat.digits_def' (by norm_num : (1 : Nat) < 10) (Nat.pos_of_ne_zero hn)]
      simp only [List.reverse_cons, List.map_append, List.map_cons, List.map_nil,
        List.append_assoc, List.singleton_append]

theorem natChars_eq {n : Nat} (h : 0 < n) :
    natChars n = (Nat.digits 10 n).reverse.map digitChar := by
  unfold natChars
  rw [if_neg (by omega), natCharsAux_eq n n [] le_rfl]
  simp

theorem digitsVal_append (l1 : List Char) : ∀ (a : Nat) (l2 : List Char),
    digitsVal a (l1 ++ l2) = digitsVal (digitsVal a l1) l2 := by
  induction l1 with
  | nil => intro a l2; rfl
  | cons c cs ih =>
    intro a l2
    rw [List.cons_append]
    show digitsVal (a * 10 + (c.toNat - 48)) (cs ++ l2) = _
    rw [ih]
    rfl

theorem digitsVal_digits (ds : List Nat) : ∀ (a : Nat), (∀ d ∈ ds, d < 10) →
    digitsVal a (ds.reverse.map digitChar) = a * 10 ^ ds.length + Nat.ofDigits 10 ds := by
  induction ds with
  | nil =>
    intro a _
    simp only [List.reverse_nil, List.map_nil, List.length_nil]
    rw [Nat.ofDigits_nil, pow_zero, Nat.mul_one, Nat.add_zero]
    rfl
  | cons d ds ih =>
    intro a h
    rw [List.reverse_cons, List.map_append, digitsVal_append]
    rw [ih a (fun x hx => h x (List.mem_cons_of_mem _ hx))]
    have hd : d < 10 := h d (List.mem_cons_self _ _)
    have hstep : ∀ X : Nat, digitsVal X (List.map digitChar [d]) =
        X * 10 + ((digitChar d).toNat - 48) := fun X => rfl
    rw [hstep, digitChar_toNat hd, Nat.ofDigits_cons, List.length_cons]
    have h48 : 48 + d - 48 = d := by omega
    rw [h48]
    ring

theorem digitsVal_natChars (n : Nat) : digitsVal 0 (natChars n) = n := by
  by_cases hn : n = 0
  · subst hn; rfl
  · rw [natChars_eq (Nat.pos_of_ne_zero hn)]
    rw [digitsVal_digits _ 0 (fun d hd => Nat.digits_lt_base (by norm_num) hd)]
    simp [Nat.ofDigits_digits]

theorem natChars_head (n : Nat) :
    ∃ d ds, natChars n = digitChar d :: ds ∧ d < 10 ∧ (n ≠ 0 → d ≠ 0) ∧
      (∀ c ∈ ds, c.isDigit = true) := by
  by_cases hn : n = 0
  · exact ⟨0, [], by subst hn; rfl, by norm_num, fun h => absurd hn h, by simp⟩
  · have hpos := Nat.pos_of_ne_zero hn
    have hnil : Nat.digits 10 n ≠ [] := Nat.digits_ne_nil_iff_ne_zero.mpr hn
    rw [natChars_eq hpos]
    rcases hrev : (Nat.digits 10 n).reverse with _ | ⟨d, l'⟩
    · exact absurd (by simpa using congrArg List.reverse hrev) hnil
    · refine ⟨d, l'.map digitChar, by simp [hrev], ?_, ?_, ?_⟩
      · exact Nat.digits_lt_base (by norm_num)
          (by rw [← List.mem_reverse, hrev]; exact List.mem_cons_self _ _)
      · intro _
        have hgl : (Nat.digits 10 n).getLast? = some d := by
          rw [List.getLast?_eq_head?_reverse, hrev]; rfl
        rw [List.getLast?_eq_getLast _ hnil] at hgl
        have := Nat.getLast_digit_ne_zero 10 hn
        simpa using (Option.some.injEq _ _ ▸ hgl : (Nat.digits 10 n).getLast hnil = d) ▸ this
      · intro c hc
        obtain ⟨x, hx, rfl⟩ := List.mem_map.mp hc
        have hx10 : x < 10 := Nat.digits_lt_base (by norm_num)
          (by rw [← List.mem_reverse, hrev]; exact List.mem_cons_of_mem _ hx)
        exact digitChar_isDigit hx10

theorem takeWhile_append_all {p : Char → Bool} (l1 : List Char) {l2 : List Char}
    (h1 : ∀ c ∈ l1, p c = true) :
    (l1 ++ l2).takeWhile p = l1 ++ l2.takeWhile p ∧ (l1 ++ l2).dropWhile p = l2.dropWhile p := by
  induction l1 with
  | nil => simp
  | cons c cs ih =>
    have hc : p c = true := h1 c (List.mem_cons_self _ _)
    have := ih (fun x hx => h1 x (List.mem_cons_of_mem _ hx))
    simp [List.takeWhile_cons, List.dropWhile_cons, hc, this.1, this.2]

theorem takeWhile_boundary {l2 : List Char} (hb : numBoundary l2 = true) :
    l2.takeWhile Char.isDigit = [] ∧ l2.dropWhile Char.isDigit = l2 := by
  cases l2 with
  | nil => simp
  | cons c cs =>
    simp only [numBoundary, Bool.and_eq_true, Bool.not_eq_true'] at hb
    simp [List.takeWhile_cons, List.dropWhile_cons, hb.1.1.1]

theorem scanFrac_boundary {rest : List Char} (hb : numBoundary rest = true) :
    scanFrac rest = ([], rest) := by
  cases rest with
  | nil => rfl
  | cons c cs =>
    simp only [numBoundary, Bool.and_eq_true, Bool.not_eq_true'] at hb
    have hc : c ≠ '.' := by
      intro h
      rw [h] at hb
      simp at hb
    simp [scanFrac, hc]

theorem scanExp_boundary {rest : List Char} (hb : numBoundary rest = true) :
    scanExp rest = ([], rest) := by
  cases rest with
  | nil => rfl
  | cons c cs =>
    simp only [numBoundary, Bool.and_eq_true, Bool.not_eq_true'] at hb
    have hc : ¬(c = 'e' ∨ c = 'E') := by
      rintro (h | h) <;> rw [h] at hb <;> simp at hb
    simp [scanExp, hc]

theorem numFinish_boundary (neg : Bool) (ids : List Char) {rest : List Char}
    (hb : numBoundary rest = true) :
    numFinish neg ids rest =
      some (.num (if neg then -(digitsVal 0 ids : Int) else (digitsVal 0 ids : Int)), rest) := by
  unfold numFinish
  rw [scanFrac_boundary hb]
  simp only
  rw [scanExp_boundary hb]
  simp

theorem parseNumCore_natChars (neg : Bool) (n : Nat) {rest : List Char}
    (hb : numBoundary rest = true) :
    parseNumCore neg (natChars n ++ rest) = numFinish neg (natChars n) rest := by
  obtain ⟨d, ds, heq, hd10, hd0, hdsdig⟩ := natChars_head n
  rw [heq]
  by_cases hn : n = 0
  · subst hn
    have h := heq.symm.trans (show natChars 0 = ['0'] from rfl)
    injection h with h1 h2
    subst h2
    rw [h1]
    simp only [List.cons_append, List.nil_append, parseNumCore]
    simp
  · have hdc0 : ¬ digitChar d = '0' := by
      apply char_ne_of_toNat_ne
      rw [digitChar_toNat hd10]
      have h48 : ('0' : Char).toNat = 48 := rfl
      have := hd0 hn
      omega
    simp only [List.cons_append, parseNumCore]
    rw [if_neg hdc0, if_pos (digitChar_isDigit hd10)]
    have htw := @takeWhile_append_all _ ds rest hdsdig
    have hbd := takeWhile_boundary hb
    rw [htw.1, htw.2, hbd.1, hbd.2, List.append_nil]

theorem digit_head_ne {d : Nat} (hd : d < 10) {c : Char} (hc : 58 ≤ c.toNat ∨ c.toNat < 48) :
    digitChar d ≠ c := by
  apply char_ne_of_toNat_ne
  rw [digitChar_toNat hd]
  omega

theorem parseNum_intChars (m : Int) {rest : List Char} (hb : numBoundary rest = true) :
    parseNum (intChars m ++ rest) = some (.num m, rest) := by
  unfold intChars
  by_cases hm : m < 0
  · rw [if_pos hm]
    obtain ⟨d, ds, heq, hd10, _, _⟩ := natChars_head (-m).toNat
    have h8 : (natChars (-m).toNat ++ rest).take 8 ≠ ['I', 'n', 'f', 'i', 'n', 'i', 't', 'y'] := by
      rw [heq]
      simp only [List.cons_append, List.take_succ_cons]
      intro hcon
      injection hcon with h1 _
      exact digit_head_ne hd10 (by left; decide) h1
    rw [List.cons_append]
    simp only [parseNum, if_true]
    rw [if_neg h8, parseNumCore_natChars true _ hb, numFinish_boundary true _ hb]
    have : -((digitsVal 0 (natChars (-m).toNat) : Nat) : Int) = m := by
      rw [digitsVal_natChars]; omega
    simp [this]
  · rw [if_neg hm]
    obtain ⟨d, ds, heq, hd10, _, _⟩ := natChars_head m.toNat
    rw [heq, List.cons_append]
    simp only [parseNum]
    rw [if_neg (digit_head_ne hd10 (by right; decide)), ← List.cons_append, ← heq,
      parseNumCore_natChars false _ hb, numFinish_boundary false _ hb]
    have hval : ((digitsVal 0 (natChars m.toNat) : Nat) : Int) = m := by
      rw [digitsVal_natChars]; omega
    simp [hval]

/-! ## String escaping roundtrip -/

theorem charValid (c : Char) : c.toNat < 55296 ∨ (57343 < c.toNat ∧ c.toNat < 1114112) :=
  c.valid

theorem parseStr_lit {c : Char} (h1 : c ≠ '"') (h2 : c ≠ '\\') (h3 : ¬ c.toNat < 32)
    (rest : List Char) :
    parseStr (c :: rest) = (parseStr rest).map (fun p => (c :: p.1, p.2)) := by
  rw [parseStr, if_neg h1, if_neg h2, if_neg h3]

theorem parseStr_u {a b d e : Char} {va vb vd ve : Nat} {r : List Char}
    (ha : hexVal a = some va) (hb : hexVal b = some vb) (hd : hexVal d = some vd)
    (he : hexVal e = some ve)
    (hns : ¬ (55296 ≤ 4096 * va + 256 * vb + 16 * vd + ve ∧
      4096 * va + 256 * vb + 16 * vd + ve ≤ 56319))
    (hns2 : ¬ (56320 ≤ 4096 * va + 256 * vb + 16 * vd + ve ∧
      4096 * va + 256 * vb + 16 * vd + ve ≤ 57343)) :
    parseStr ('\\' :: 'u' :: a :: b :: d :: e :: r) =
      (parseStr r).map (fun p => (Char.ofNat (4096 * va + 256 * vb + 16 * vd + ve) :: p.1, p.2)) := by
  have h0 : parseStr ('\\' :: 'u' :: a :: b :: d :: e :: r) =
      (match hexVal a, hexVal b, hexVal d, hexVal e with
        | some v1, some v2, some v3, some v4 =>
          if 55296 ≤ 4096 * v1 + 256 * v2 + 16 * v3 + v4 ∧
              4096 * v1 + 256 * v2 + 16 * v3 + v4 ≤ 56319 then
            parseLow (4096 * v1 + 256 * v2 + 16 * v3 + v4) r
          else if 56320 ≤ 4096 * v1 + 256 * v2 + 16 * v3 + v4 ∧
              4096 * v1 + 256 * v2 + 16 * v3 + v4 ≤ 57343 then none
          else (parseStr r).map
            (fun p => (Char.ofNat (4096 * v1 + 256 * v2 + 16 * v3 + v4) :: p.1, p.2))
        | _, _, _, _ => none) := rfl
  rw [h0, ha, hb, hd, he]
  dsimp only
  rw [if_neg hns, if_neg hns2]

theorem parseStr_u_pair {a b d e f g i j : Char} {va vb vd ve wa wb wd we : Nat} {r : List Char}
    (ha : hexVal a = some va) (hb : hexVal b = some vb) (hd : hexVal d = some vd)
    (he : hexVal e = some ve)
    (hf : hexVal f = some wa) (hg : hexVal g = some wb) (hi : hexVal i = some wd)
    (hj : hexVal j = some we)
    (hs1 : 55296 ≤ 4096 * va + 256 * vb + 16 * vd + ve ∧
      4096 * va + 256 * vb + 16 * vd + ve ≤ 56319)
    (hs2 : 56320 ≤ 4096 * wa + 256 * wb + 16 * wd + we ∧
      4096 * wa + 256 * wb + 16 * wd + we ≤ 57343) :
    parseStr ('\\' :: 'u' :: a :: b :: d :: e :: '\\' :: 'u' :: f :: g :: i :: j :: r) =
      (parseStr r).map (fun p =>
        (Char.ofNat (65536 + 1024 * ((4096 * va + 256 * vb + 16 * vd + ve) - 55296) +
          ((4096 * wa + 256 * wb + 16 * wd + we) - 56320)) :: p.1, p.2)) := by
  have h0 : parseStr ('\\' :: 'u' :: a :: b :: d :: e :: '\\' :: 'u' :: f :: g :: i :: j :: r) =
      (match hexVal a, hexVal b, hexVal d, hexVal e with
        | some v1, some v2, some v3, some v4 =>
          if 55296 ≤ 4096 * v1 + 256 * v2 + 16 * v3 + v4 ∧
              4096 * v1 + 256 * v2 + 16 * v3 + v4 ≤ 56319 then
            parseLow (4096 * v1 + 256 * v2 + 16 * v3 + v4)
              ('\\' :: 'u' :: f :: g :: i :: j :: r)
          else if 56320 ≤ 4096 * v1 + 256 * v2 + 16 * v3 + v4 ∧
              4096 * v1 + 256 * v2 + 16 * v3 + v4 ≤ 57343 then none
          else (parseStr ('\\' :: 'u' :: f :: g :: i :: j :: r)).map
            (fun p => (Char.ofNat (4096 * v1 + 256 * v2 + 16 * v3 + v4) :: p.1, p.2))
        | _, _, _, _ => none) := rfl
  rw [h0, ha, hb, hd, he]
  dsimp only
  rw [if_pos hs1]
  have h1 : parseLow (4096 * va + 256 * vb + 16 * vd + ve) ('\\' :: 'u' :: f :: g :: i :: j :: r) =
      (match hexVal f, hexVal g, hexVal i, hexVal j with
        | some w1, some w2, some w3, some w4 =>
          if 56320 ≤ 4096 * w1 + 256 * w2 + 16 * w3 + w4 ∧
              4096 * w1 + 256 * w2 + 16 * w3 + w4 ≤ 57343 then
            (parseStr r).map
              (fun p => (Char.ofNat (65536 +
                1024 * ((4096 * va + 256 * vb + 16 * vd + ve) - 55296) +
                ((4096 * w1 + 256 * w2 + 16 * w3 + w4) - 56320)) :: p.1, p.2))
          else none
        | _, _, _, _ => none) := rfl
  rw [h1, hf, hg, hi, hj]
  dsimp only
  rw [if_pos hs2]

theorem parseStr_escChars : ∀ (l rest : List Char),
    parseStr (escChars l ++ '"' :: rest) = some (l, rest) := by
  intro l
  induction l with
  | nil => intro rest; rfl
  | cons c cs ih =>
    intro rest
    have hsp : escChars (c :: cs) ++ '"' :: rest = escapeChar c ++ (escChars cs ++ '"' :: rest) := by
      show (escapeChar c ++ escChars cs) ++ '"' :: rest = _
      rw [List.append_assoc]
    rw [hsp]
    unfold escapeChar
    split_ifs with h1 h2 h3 h4 h5 h6 h7 h8 h9
    · subst h1
      have h0 : parseStr ('\\' :: '"' :: (escChars cs ++ '"' :: rest)) =
          (parseStr (escChars cs ++ '"' :: rest)).map (fun p => ('"' :: p.1, p.2)) := rfl
      rw [show (['\\', '"'] : List Char) ++ (escChars cs ++ '"' :: rest) =
        '\\' :: '"' :: (escChars cs ++ '"' :: rest) from rfl, h0, ih]
      rfl
    · subst h2
      have h0 : parseStr ('\\' :: '\\' :: (escChars cs ++ '"' :: rest)) =
          (parseStr (escChars cs ++ '"' :: rest)).map (fun p => ('\\' :: p.1, p.2)) := rfl
      rw [show (['\\', '\\'] : List Char) ++ (escChars cs ++ '"' :: rest) =
        '\\' :: '\\' :: (escChars cs ++ '"' :: rest) from rfl, h0, ih]
      rfl
    · subst h3
      have h0 : parseStr ('\\' :: 'b' :: (escChars cs ++ '"' :: rest)) =
          (parseStr (escChars cs ++ '"' :: rest)).map (fun p => (Char.ofNat 8 :: p.1, p.2)) := rfl
      rw [show (['\\', 'b'] : List Char) ++ (escChars cs ++ '"' :: rest) =
        '\\' :: 'b' :: (escChars cs ++ '"' :: rest) from rfl, h0, ih]
      rfl
    · subst h4
      have h0 : parseStr ('\\' :: 'f' :: (escChars cs ++ '"' :: rest)) =
          (parseStr (escChars cs ++ '"' :: rest)).map (fun p => (Char.ofNat 12 :: p.1, p.2)) := rfl
      rw [show (['\\', 'f'] : List Char) ++ (escChars cs ++ '"' :: rest) =
        '\\' :: 'f' :: (escChars cs ++ '"' :: rest) from rfl, h0, ih]
      rfl
    · subst h5
      have h0 : parseStr ('\\' :: 'n' :: (escChars cs ++ '"' :: rest)) =
          (parseStr (escChars cs ++ '"' :: rest)).map (fun p => (Char.ofNat 10 :: p.1, p.2)) := rfl
      rw [show (['\\', 'n'] : List Char) ++ (escChars cs ++ '"' :: rest) =
        '\\' :: 'n' :: (escChars cs ++ '"' :: rest) from rfl, h0, ih]
      rfl
    · subst h6
      have h0 : parseStr ('\\' :: 'r' :: (escChars cs ++ '"' :: rest)) =
          (parseStr (escChars cs ++ '"' :: rest)).map (fun p => (Char.ofNat 13 :: p.1, p.2)) := rfl
      rw [show (['\\', 'r'] : List Char) ++ (escChars cs ++ '"' :: rest) =
        '\\' :: 'r' :: (escChars cs ++ '"' :: rest) from rfl, h0, ih]
      rfl
    · subst h7
      have h0 : parseStr ('\\' :: 't' :: (escChars cs ++ '"' :: rest)) =
          (parseStr (escChars cs ++ '"' :: rest)).map (fun p => (Char.ofNat 9 :: p.1, p.2)) := rfl
      rw [show (['\\', 't'] : List Char) ++ (escChars cs ++ '"' :: rest) =
        '\\' :: 't' :: (escChars cs ++ '"' :: rest) from rfl, h0, ih]
      rfl
    · rw [show ([c] : List Char) ++ (escChars cs ++ '"' :: rest) =
        c :: (escChars cs ++ '"' :: rest) from rfl]
      rw [parseStr_lit h1 h2 (by omega), ih]
      rfl
    · rw [show ('\\' :: 'u' :: hex4 c.toNat) ++ (escChars cs ++ '"' :: rest) =
        '\\' :: 'u' :: hexDigitChar (c.toNat / 4096 % 16) :: hexDigitChar (c.toNat / 256 % 16) ::
          hexDigitChar (c.toNat / 16 % 16) :: hexDigitChar (c.toNat % 16) ::
          (escChars cs ++ '"' :: rest) from rfl]
      have hu : 4096 * (c.toNat / 4096 % 16) + 256 * (c.toNat / 256 % 16) +
          16 * (c.toNat / 16 % 16) + c.toNat % 16 = c.toNat := by omega
      rw [parseStr_u (hexVal_hexDigitChar (Nat.mod_lt _ (by norm_num)))
        (hexVal_hexDigitChar (Nat.mod_lt _ (by norm_num)))
        (hexVal_hexDigitChar (Nat.mod_lt _ (by norm_num)))
        (hexVal_hexDigitChar (Nat.mod_lt _ (by norm_num)))
        (by rcases charValid c with hv | hv <;> omega)
        (by rcases charValid c with hv | hv <;> omega)]
      rw [hu, Char.ofNat_toNat, ih]
      rfl
    · have hbig : 65536 ≤ c.toNat := by omega
      have hlt : c.toNat < 1114112 := by
        rcases charValid c with hv | hv
        · omega
        · exact hv.2
      rw [show (('\\' :: 'u' :: hex4 (55296 + (c.toNat - 65536) / 1024)) ++
          ('\\' :: 'u' :: hex4 (56320 + (c.toNat - 65536) % 1024))) ++
          (escChars cs ++ '"' :: rest) =
        '\\' :: 'u' :: hexDigitChar ((55296 + (c.toNat - 65536) / 1024) / 4096 % 16) ::
          hexDigitChar ((55296 + (c.toNat - 65536) / 1024) / 256 % 16) ::
          hexDigitChar ((55296 + (c.toNat - 65536) / 1024) / 16 % 16) ::
          hexDigitChar ((55296 + (c.toNat - 65536) / 1024) % 16) ::
        '\\' :: 'u' :: hexDigitChar ((56320 + (c.toNat - 65536) % 1024) / 4096 % 16) ::
          hexDigitChar ((56320 + (c.toNat - 65536) % 1024) / 256 % 16) ::
          hexDigitChar ((56320 + (c.toNat - 65536) % 1024) / 16 % 16) ::
          hexDigitChar ((56320 + (c.toNat - 65536) % 1024) % 16) ::
          (escChars cs ++ '"' :: rest) from rfl]
      rw [parseStr_u_pair (hexVal_hexDigitChar (Nat.mod_lt _ (by norm_num)))
        (hexVal_hexDigitChar (Nat.mod_lt _ (by norm_num)))
        (hexVal_hexDigitChar (Nat.mod_lt _ (by norm_num)))
        (hexVal_hexDigitChar (Nat.mod_lt _ (by norm_num)))
        (hexVal_hexDigitChar (Nat.mod_lt _ (by norm_num)))
        (hexVal_hexDigitChar (Nat.mod_lt _ (by norm_num)))
        (hexVal_hexDigitChar (Nat.mod_lt _ (by norm_num)))
        (hexVal_hexDigitChar (Nat.mod_lt _ (by norm_num)))
        (by constructor <;> omega) (by constructor <;> omega)]
      have hu : 65536 +
          1024 * ((4096 * ((55296 + (c.toNat - 65536) / 1024) / 4096 % 16) +
            256 * ((55296 + (c.toNat - 65536) / 1024) / 256 % 16) +
            16 * ((55296 + (c.toNat - 65536) / 1024) / 16 % 16) +
            (55296 + (c.toNat - 65536) / 1024) % 16) - 55296) +
          ((4096 * ((56320 + (c.toNat - 65536) % 1024) / 4096 % 16) +
            256 * ((56320 + (c.toNat - 65536) % 1024) / 256 % 16) +
            16 * ((56320 + (c.toNat - 65536) % 1024) / 16 % 16) +
            (56320 + (c.toNat - 65536) % 1024) % 16) - 56320) = c.toNat := by omega
      rw [hu, Char.ofNat_toNat, ih]
      rfl

/-! ## Whitespace and dispatch lemmas -/

theorem isJsonWs_false {c : Char} (h32 : c.toNat ≠ 32) (h9 : c.toNat ≠ 9) (h10 : c.toNat ≠ 10)
    (h13 : c.toNat ≠ 13) : isJsonWs c = false := by
  unfold isJsonWs
  have e1 : (c == ' ') = false := beq_eq_false_iff_ne.mpr (char_ne_of_toNat_ne h32)
  have e2 : (c == Char.ofNat 9) = false := beq_eq_false_iff_ne.mpr (char_ne_of_toNat_ne h9)
  have e3 : (c == Char.ofNat 10) = false := beq_eq_false_iff_ne.mpr (char_ne_of_toNat_ne h10)
  have e4 : (c == Char.ofNat 13) = false := beq_eq_false_iff_ne.mpr (char_ne_of_toNat_ne h13)
  rw [e1, e2, e3, e4]
  rfl

theorem skipWs_eq_of_head {c : Char} (h : isJsonWs c = false) (cs : List Char) :
    skipWs (c :: cs) = c :: cs := by
  simp [skipWs, List.dropWhile_cons, h]

theorem skipWs_space (cs : List Char) : skipWs (' ' :: cs) = skipWs cs := by
  simp [skipWs, List.dropWhile_cons, isJsonWs]

theorem parseVal_quote (f : Nat) (X : List Char) :
    parseVal (f + 1) ('"' :: X) =
      (parseStr X).map (fun p => (Json.str (String.mk p.1), p.2)) := rfl

theorem parseVal_objNE (f : Nat) (Y : List Char) :
    parseVal (f + 1) ('{' :: '"' :: Y) =
      (parseMembers f ('"' :: Y)).map (fun p => (Json.obj p.1, p.2)) := rfl

theorem parseVal_arrNE (f : Nat) (Y : List Char) :
    parseVal (f + 1) ('[' :: '{' :: Y) =
      (parseElems f ('{' :: Y)).map (fun p => (Json.arr p.1, p.2)) := rfl

theorem parseVal_to_parseNum {c : Char} (h : c.isDigit = true ∨ c = '-') (f : Nat)
    (rest : List Char) : parseVal (f + 1) (c :: rest) = parseNum (c :: rest) := by
  have hn : 45 ≤ c.toNat ∧ c.toNat ≤ 57 := by
    rcases h with h | h
    · have := isDigit_toNat h
      omega
    · subst h
      constructor <;> decide
  rw [show parseVal (f + 1) (c :: rest) =
      (if c = '"' then (parseStr rest).map (fun p => (Json.str (String.mk p.1), p.2))
      else if c = '[' then
        match skipWs rest with
        | ']' :: r => some (.arr .nil, r)
        | r => (parseElems f r).map (fun p => (Json.arr p.1, p.2))
      else if c = '{' then
        match skipWs rest with
        | '}' :: r => some (.obj .nil, r)
        | r => (parseMembers f r).map (fun p => (Json.obj p.1, p.2))
      else if c = 'n' then
        match rest with
        | 'u' :: 'l' :: 'l' :: r => some (.null, r)
        | _ => none
      else if c = 't' then
        match rest with
        | 'r' :: 'u' :: 'e' :: r => some (.bool true, r)
        | _ => none
      else if c = 'f' then
        match rest with
        | 'a' :: 'l' :: 's' :: 'e' :: r => some (.bool false, r)
        | _ => none
      else if c = 'N' then
        match rest with
        | 'a' :: 'N' :: r => some (.flt "NaN", r)
        | _ => none
      else if c = 'I' then
        match rest with
        | 'n' :: 'f' :: 'i' :: 'n' :: 'i' :: 't' :: 'y' :: r => some (.flt "Infinity", r)
        | _ => none
      else parseNum (c :: rest)) from rfl]
  rw [if_neg (char_ne_of_toNat_ne (by rw [show ('"' : Char).toNat = 34 from rfl]; omega)),
    if_neg (char_ne_of_toNat_ne (by rw [show ('[' : Char).toNat = 91 from rfl]; omega)),
    if_neg (char_ne_of_toNat_ne (by rw [show ('{' : Char).toNat = 123 from rfl]; omega)),
    if_neg (char_ne_of_toNat_ne (by rw [show ('n' : Char).toNat = 110 from rfl]; omega)),
    if_neg (char_ne_of_toNat_ne (by rw [show ('t' : Char).toNat = 116 from rfl]; omega)),
    if_neg (char_ne_of_toNat_ne (by rw [show ('f' : Char).toNat = 102 from rfl]; omega)),
    if_neg (char_ne_of_toNat_ne (by rw [show ('N' : Char).toNat = 78 from rfl]; omega)),
    if_neg (char_ne_of_toNat_ne (by rw [show ('I' : Char).toNat = 73 from rfl]; omega))]

theorem intChars_head (n : Int) :
    ∃ c cs, intChars n = c :: cs ∧ (c.isDigit = true ∨ c = '-') := by
  unfold intChars
  by_cases hn : n < 0
  · exact ⟨'-', natChars (-n).toNat, by rw [if_pos hn], Or.inr rfl⟩
  · obtain ⟨d, ds, heq, hd10, _, _⟩ := natChars_head n.toNat
    exact ⟨digitChar d, ds, by rw [if_neg hn, heq], Or.inl (digitChar_isDigit hd10)⟩

/-! ## Serialized scalar values parse back -/

theorem parseVal_dump_scalar {v : Json} (hv : isScalar v = true) (f : Nat) {rest : List Char}
    (hb : numBoundary rest = true) :
    parseVal (f + 1) (dumpJson v ++ rest) = some (v, rest) := by
  cases v with
  | null => rfl
  | bool b => cases b <;> rfl
  | num n =>
    obtain ⟨c, cs, heq, hcd⟩ := intChars_head n
    have hdump : dumpJson (.num n) = intChars n := rfl
    rw [hdump, heq, List.cons_append, parseVal_to_parseNum hcd, ← List.cons_append, ← heq,
      parseNum_intChars n hb]
  | str s =>
    have hdump : dumpJson (.str s) ++ rest = '"' :: (escChars s.data ++ '"' :: rest) := by
      show ('"' :: (escChars s.data ++ ['"'])) ++ rest = _
      rw [List.cons_append, List.append_assoc]
      rfl
    rw [hdump, parseVal_quote, parseStr_escChars]
    rfl
  | flt s => simp [isScalar] at hv
  | arr xs => simp [isScalar] at hv
  | obj kvs => simp [isScalar] at hv

/-! ## Serialized objects parse back -/

theorem parseMembers_cons_eq (f : Nat) (rest : List Char) :
    parseMembers (f + 1) ('"' :: rest) =
      (match parseStr rest with
       | none => none
       | some (ks, r1) =>
         match skipWs r1 with
         | ':' :: r2 =>
           match parseVal f (skipWs r2) with
           | none => none
           | some (v, r3) =>
             match skipWs r3 with
             | ',' :: r4 =>
               match parseMembers f (skipWs r4) with
               | some (ms, r5) => some (.cons (String.mk ks) v ms, r5)
               | none => none
             | '}' :: r4 => some (.cons (String.mk ks) v .nil, r4)
             | _ => none
         | _ => none) := rfl

theorem parseElems_cons_eq (f : Nat) (cs : List Char) :
    parseElems (f + 1) cs =
      (match parseVal f cs with
       | none => none
       | some (v, r1) =>
         match skipWs r1 with
         | ',' :: r2 =>
           match parseElems f (skipWs r2) with
           | some (vs, r3) => some (.cons v vs, r3)
           | none => none
         | ']' :: r2 => some (.cons v .nil, r2)
         | _ => none) := rfl

theorem dump_scalar_skipWs {v : Json} (hv : isScalar v = true) (X : List Char) :
    skipWs (dumpJson v ++ X) = dumpJson v ++ X := by
  cases v with
  | null => exact skipWs_eq_of_head (by decide) _
  | bool b => cases b <;> exact skipWs_eq_of_head (by decide) _
  | num n =>
    obtain ⟨c, cs, heq, hcd⟩ := intChars_head n
    have hdump : dumpJson (.num n) = intChars n := rfl
    rw [hdump, heq, List.cons_append]
    refine skipWs_eq_of_head (isJsonWs_false ?_ ?_ ?_ ?_) _ <;>
      (rcases hcd with h | h
       · have := isDigit_toNat h
         omega
       · subst h; decide)
  | str s => exact skipWs_eq_of_head (by decide) _
  | flt s => simp [isScalar] at hv
  | arr xs => simp [isScalar] at hv
  | obj kvs => simp [isScalar] at hv

theorem parseMembers_step_last (f : Nat) (k : String) {v : Json} (hv : isScalar v = true)
    (rest : List Char) :
    parseMembers (f + 1 + 1)
      ('"' :: (escChars k.data ++ '"' :: (':' :: ' ' :: (dumpJson v ++ '}' :: rest)))) =
      some (.cons k v .nil, rest) := by
  rw [parseMembers_cons_eq, parseStr_escChars]
  show (match parseVal (f + 1) (skipWs (' ' :: (dumpJson v ++ '}' :: rest))) with
        | none => none
        | some (v', r3) =>
          match skipWs r3 with
          | ',' :: r4 =>
            match parseMembers (f + 1) (skipWs r4) with
            | some (ms, r5) => some (JsonObj.cons k v' ms, r5)
            | none => none
          | '}' :: r4 => some (JsonObj.cons k v' .nil, r4)
          | _ => none) = some (JsonObj.cons k v .nil, rest)
  rw [skipWs_space, dump_scalar_skipWs hv, parseVal_dump_scalar hv _ (by rfl)]
  rfl

theorem parseMembers_step_more (f : Nat) (k : String) {v : Json} (hv : isScalar v = true)
    (tail : List Char) :
    parseMembers (f + 1 + 1)
      ('"' :: (escChars k.data ++ '"' :: (':' :: ' ' :: (dumpJson v ++ ',' :: ' ' :: tail)))) =
      (match parseMembers (f + 1) (skipWs tail) with
       | some (ms, r5) => some (JsonObj.cons k v ms, r5)
       | none => none) := by
  rw [parseMembers_cons_eq, parseStr_escChars]
  show (match parseVal (f + 1) (skipWs (' ' :: (dumpJson v ++ ',' :: ' ' :: tail))) with
        | none => none
        | some (v', r3) =>
          match skipWs r3 with
          | ',' :: r4 =>
            match parseMembers (f + 1) (skipWs r4) with
            | some (ms, r5) => some (JsonObj.cons k v' ms, r5)
            | none => none
          | '}' :: r4 => some (JsonObj.cons k v' .nil, r4)
          | _ => none) = _
  rw [skipWs_space, dump_scalar_skipWs hv, parseVal_dump_scalar hv _ (by rfl)]
  rfl

theorem parseMembers_dumpObj : ∀ (n : Nat) (kvs : JsonObj), objLength kvs ≤ n →
    ∀ (f : Nat) (rest : List Char),
    scalarObj kvs = true → kvs ≠ .nil → objLength kvs + 1 ≤ f →
    parseMembers f (dumpObj kvs ++ '}' :: rest) = some (kvs, rest) := by
  intro n
  induction n with
  | zero =>
    intro kvs hlen f rest _ hne _
    cases kvs with
    | nil => exact absurd rfl hne
    | cons k v tl => simp [objLength] at hlen
  | succ m ihn =>
    intro kvs hlen f rest hsc hne hf
    cases kvs with
    | nil => exact absurd rfl hne
    | cons k v tl =>
      have hv : isScalar v = true := by
        simp only [scalarObj, Bool.and_eq_true] at hsc
        exact hsc.1
      have htl : scalarObj tl = true := by
        simp only [scalarObj, Bool.and_eq_true] at hsc
        exact hsc.2
      obtain ⟨f', rfl⟩ : ∃ f', f = f' + 1 := by
        cases f with
        | zero => simp [objLength] at hf
        | succ f' => exact ⟨f', rfl⟩
      obtain ⟨f'', rfl⟩ : ∃ f'', f' = f'' + 1 := by
        cases f' with
        | zero => simp [objLength] at hf
        | succ f'' => exact ⟨f'', rfl⟩
      cases tl with
      | nil =>
        have hshape : dumpObj (.cons k v .nil) ++ '}' :: rest =
            '"' :: (escChars k.data ++ '"' :: (':' :: ' ' :: (dumpJson v ++ '}' :: rest))) := by
          show (('"' :: escChars k.data ++ ['"']) ++ ':' :: ' ' :: dumpJson v) ++ '}' :: rest = _
          simp only [List.cons_append, List.append_assoc, List.singleton_append, List.nil_append]
        rw [hshape]
        exact parseMembers_step_last f'' k hv rest
      | cons k2 v2 tl2 =>
        have hshape : dumpObj (.cons k v (.cons k2 v2 tl2)) ++ '}' :: rest =
            '"' :: (escChars k.data ++ '"' ::
              (':' :: ' ' :: (dumpJson v ++
                ',' :: ' ' :: (dumpObj (.cons k2 v2 tl2) ++ '}' :: rest)))) := by
          show ((('"' :: escChars k.data ++ ['"']) ++ ':' :: ' ' :: dumpJson v) ++
            ',' :: ' ' :: dumpObj (.cons k2 v2 tl2)) ++ '}' :: rest = _
          simp only [List.cons_append, List.append_assoc, List.singleton_append, List.nil_append]
        rw [hshape, parseMembers_step_more f'' k hv _]
        have hhead : ∃ z, dumpObj (.cons k2 v2 tl2) = '"' :: z := by
          cases tl2 <;> exact ⟨_, rfl⟩
        obtain ⟨z, hz⟩ := hhead
        have hsk : skipWs (dumpObj (.cons k2 v2 tl2) ++ '}' :: rest) =
            dumpObj (.cons k2 v2 tl2) ++ '}' :: rest := by
          rw [hz, List.cons_append, skipWs_eq_of_head (by decide), ← List.cons_append, ← hz]
        rw [hsk, ihn (.cons k2 v2 tl2) (by
            simp only [objLength] at hlen ⊢
            omega) _ rest htl (by intro h; cases h) (by
            simp only [objLength] at hf ⊢
            omega)]

theorem parseVal_dump_obj {kvs : JsonObj} (hv : scalarObj kvs = true) {f : Nat}
    (hf : objLength kvs + 2 ≤ f) (rest : List Char) :
    parseVal f (dumpJson (.obj kvs) ++ rest) = some (.obj kvs, rest) := by
  obtain ⟨f', rfl⟩ : ∃ f', f = f' + 1 := by
    cases f with
    | zero => omega
    | succ f' => exact ⟨f', rfl⟩
  cases kvs with
  | nil => rfl
  | cons k v tl =>
    have hshape : dumpJson (.obj (.cons k v tl)) ++ rest =
        '{' :: (dumpObj (.cons k v tl) ++ '}' :: rest) := by
      show ('{' :: dumpObj (.cons k v tl) ++ ['}']) ++ rest = _
      simp only [List.cons_append, List.append_assoc, List.singleton_append, List.nil_append]
    rw [hshape]
    have hhead : ∃ z, dumpObj (.cons k v tl) = '"' :: z := by
      cases tl <;> exact ⟨_, rfl⟩
    obtain ⟨z, hz⟩ := hhead
    rw [hz, List.cons_append, parseVal_objNE, ← List.cons_append, ← hz,
      parseMembers_dumpObj (objLength (.cons k v tl)) _ le_rfl _ _ hv
        (by intro h; cases h) (by omega)]
    rfl

/-! ## Serialized thread lists parse back -/

theorem dumpList_obj_head {x : Json} {tl : JsonList} (hx : isObj x = true) :
    ∃ z, dumpList (.cons x tl) = '{' :: z := by
  cases x with
  | obj kvs =>
    cases tl with
    | nil => exact ⟨_, rfl⟩
    | cons y tl2 =>
      refine ⟨dumpObj kvs ++ ['}'] ++ ',' :: ' ' :: dumpList (.cons y tl2), ?_⟩
      show ('{' :: dumpObj kvs ++ ['}']) ++ ',' :: ' ' :: dumpList (.cons y tl2) = _
      simp only [List.cons_append, List.append_assoc]
  | null => simp [isObj] at hx
  | bool b => simp [isObj] at hx
  | num n => simp [isObj] at hx
  | flt s => simp [isObj] at hx
  | str s => simp [isObj] at hx
  | arr xs => simp [isObj] at hx

theorem parseElems_step_last {kvs : JsonObj} (hkv : scalarObj kvs = true) {f : Nat}
    (hf : objLength kvs + 2 ≤ f) (rest : List Char) :
    parseElems (f + 1) (dumpJson (.obj kvs) ++ ']' :: rest) =
      some (.cons (.obj kvs) .nil, rest) := by
  rw [parseElems_cons_eq, parseVal_dump_obj hkv hf]
  rfl

theorem parseElems_step_more {kvs : JsonObj} (hkv : scalarObj kvs = true) {f : Nat}
    (hf : objLength kvs + 2 ≤ f) (tail : List Char) :
    parseElems (f + 1) (dumpJson (.obj kvs) ++ ',' :: ' ' :: tail) =
      (match parseElems f (skipWs tail) with
       | some (vs, r3) => some (JsonList.cons (.obj kvs) vs, r3)
       | none => none) := by
  rw [parseElems_cons_eq, parseVal_dump_obj hkv hf]
  rfl

theorem parseElems_dumpList : ∀ (n : Nat) (l : JsonList), jsonListLength l ≤ n →
    ∀ (f : Nat) (rest : List Char),
    threadObjsList l = true → l ≠ .nil → elemsNeed l ≤ f →
    parseElems f (dumpList l ++ ']' :: rest) = some (l, rest) := by
  intro n
  induction n with
  | zero =>
    intro l hlen f rest _ hne _
    cases l with
    | nil => exact absurd rfl hne
    | cons x tl => simp [jsonListLength] at hlen
  | succ m ihn =>
    intro l hlen f rest hl hne hf
    cases l with
    | nil => exact absurd rfl hne
    | cons x tl =>
      obtain ⟨kvs, rfl⟩ : ∃ kvs, x = Json.obj kvs := by
        simp only [threadObjsList, Bool.and_eq_true] at hl
        cases x with
        | obj kvs => exact ⟨kvs, rfl⟩
        | null => simp at hl
        | bool b => simp at hl
        | num n => simp at hl
        | flt s => simp at hl
        | str s => simp at hl
        | arr xs => simp at hl
      have hkv : scalarObj kvs = true := by
        simp only [threadObjsList, Bool.and_eq_true] at hl
        exact hl.1
      have htl : threadObjsList tl = true := by
        simp only [threadObjsList, Bool.and_eq_true] at hl
        exact hl.2
      have hneed : objLength kvs + 3 + elemsNeed tl ≤ f := by
        simpa only [elemsNeed] using hf
      obtain ⟨f', rfl⟩ : ∃ f', f = f' + 1 := by
        cases f with
        | zero => omega
        | succ f' => exact ⟨f', rfl⟩
      cases tl with
      | nil =>
        have hshape : dumpList (.cons (Json.obj kvs) .nil) ++ ']' :: rest =
            dumpJson (.obj kvs) ++ ']' :: rest := rfl
        rw [hshape]
        exact parseElems_step_last hkv (by omega) rest
      | cons y tl2 =>
        have hshape : dumpList (.cons (Json.obj kvs) (.cons y tl2)) ++ ']' :: rest =
            dumpJson (.obj kvs) ++ ',' :: ' ' :: (dumpList (.cons y tl2) ++ ']' :: rest) := by
          show (dumpJson (.obj kvs) ++ ',' :: ' ' :: dumpList (.cons y tl2)) ++ ']' :: rest = _
          simp only [List.cons_append, List.append_assoc]
        rw [hshape, parseElems_step_more hkv (by omega) _]
        have hyobj : isObj y = true := by
          simp only [threadObjsList, Bool.and_eq_true] at htl
          cases y with
          | obj kvs2 => rfl
          | null => simp at htl
          | bool b => simp at htl
          | num n => simp at htl
          | flt s => simp at htl
          | str s => simp at htl
          | arr xs => simp at htl
        obtain ⟨z, hz⟩ := @dumpList_obj_head y tl2 hyobj
        have hsk : skipWs (dumpList (.cons y tl2) ++ ']' :: rest) =
            dumpList (.cons y tl2) ++ ']' :: rest := by
          rw [hz, List.cons_append, skipWs_eq_of_head (by decide), ← List.cons_append, ← hz]
        rw [hsk, ihn (.cons y tl2) (by
            simp only [jsonListLength] at hlen ⊢
            omega) _ rest htl (by intro h; cases h) (by
            simp only [elemsNeed] at hf ⊢
            omega)]

/-! ## The serialized text dominates the recursion budget -/

theorem objLength_le_dumpObj : ∀ (n : Nat) (kvs : JsonObj), objLength kvs ≤ n →
    objLength kvs ≤ (dumpObj kvs).length + 1 := by
  intro n
  induction n with
  | zero =>
    intro kvs hlen
    omega
  | succ m ihn =>
    intro kvs hlen
    cases kvs with
    | nil => simp [objLength]
    | cons k v tl =>
      cases tl with
      | nil =>
        simp only [objLength]
        omega
      | cons k2 v2 tl2 =>
        have hrec := ihn (.cons k2 v2 tl2) (by simp only [objLength] at hlen ⊢; omega)
        have hshape : (dumpObj (.cons k v (.cons k2 v2 tl2))).length =
            ((('"' :: escChars k.data ++ ['"']) ++ ':' :: ' ' :: dumpJson v).length + 2) +
              (dumpObj (.cons k2 v2 tl2)).length := by
          show ((('"' :: escChars k.data ++ ['"']) ++ ':' :: ' ' :: dumpJson v) ++
            ',' :: ' ' :: dumpObj (.cons k2 v2 tl2)).length = _
          simp only [List.length_append, List.length_cons]
          omega
        simp only [objLength] at hrec ⊢
        omega

theorem elemsNeed_le_dumpList : ∀ (n : Nat) (l : JsonList), jsonListLength l ≤ n →
    threadObjsList l = true → elemsNeed l ≤ (dumpList l).length + 2 := by
  intro n
  induction n with
  | zero =>
    intro l hlen _
    cases l with
    | nil => simp [elemsNeed]
    | cons x tl => simp [jsonListLength] at hlen
  | succ m ihn =>
    intro l hlen hl
    cases l with
    | nil => simp [elemsNeed]
    | cons x tl =>
      obtain ⟨kvs, rfl⟩ : ∃ kvs, x = Json.obj kvs := by
        simp only [threadObjsList, Bool.and_eq_true] at hl
        cases x with
        | obj kvs => exact ⟨kvs, rfl⟩
        | null => simp at hl
        | bool b => simp at hl
        | num n => simp at hl
        | flt s => simp at hl
        | str s => simp at hl
        | arr xs => simp at hl
      have htl : threadObjsList tl = true := by
        simp only [threadObjsList, Bool.and_eq_true] at hl
        exact hl.2
      have hobjlen := objLength_le_dumpObj (objLength kvs) kvs le_rfl
      have hdumpobj : (dumpJson (.obj kvs)).length = (dumpObj kvs).length + 2 := by
        show ('{' :: dumpObj kvs ++ ['}']).length = _
        simp only [List.length_append, List.length_cons, List.length_nil]
      cases tl with
      | nil =>
        simp only [elemsNeed]
        have hd : dumpList (.cons (Json.obj kvs) .nil) = dumpJson (.obj kvs) := rfl
        rw [hd, hdumpobj]
        omega
      | cons y tl2 =>
        have hrec := ihn (.cons y tl2) (by simp only [jsonListLength] at hlen ⊢; omega) htl
        have hshape : (dumpList (.cons (Json.obj kvs) (.cons y tl2))).length =
            (dumpJson (.obj kvs)).length + 2 + (dumpList (.cons y tl2)).length := by
          show (dumpJson (.obj kvs) ++ ',' :: ' ' :: dumpList (.cons y tl2)).length = _
          simp only [List.length_append, List.length_cons]
          omega
        simp only [elemsNeed] at hrec ⊢
        rw [hshape, hdumpobj]
        omega

/-! ## Serialized thread lists load back -/

theorem pyJsonLoads_dump_arr (l : JsonList) (hl : threadObjsList l = true) :
    pyJsonLoads (dumpJson (.arr l)) = some (.arr l) := by
  cases l with
  | nil => rfl
  | cons x tl =>
    obtain ⟨kvs, rfl⟩ : ∃ kvs, x = Json.obj kvs := by
      simp only [threadObjsList, Bool.and_eq_true] at hl
      cases x with
      | obj kvs => exact ⟨kvs, rfl⟩
      | null => simp at hl
      | bool b => simp at hl
      | num n => simp at hl
      | flt s => simp at hl
      | str s => simp at hl
      | arr xs => simp at hl
    have hsk : skipWs (dumpJson (.arr (.cons (Json.obj kvs) tl))) =
        dumpJson (.arr (.cons (Json.obj kvs) tl)) := by
      show skipWs ('[' :: (dumpList (.cons (Json.obj kvs) tl) ++ [']'])) = _
      exact skipWs_eq_of_head (by decide) _
    show (match parseVal ((skipWs (dumpJson (.arr (.cons (Json.obj kvs) tl)))).length + 1)
        (skipWs (dumpJson (.arr (.cons (Json.obj kvs) tl)))) with
      | some (j, r) => if skipWs r = [] then some j else none
      | none => none) = some (.arr (.cons (Json.obj kvs) tl))
    rw [hsk]
    obtain ⟨z, hz⟩ := @dumpList_obj_head (Json.obj kvs) tl rfl
    have hlen : (dumpJson (.arr (.cons (Json.obj kvs) tl))).length =
        (dumpList (.cons (Json.obj kvs) tl)).length + 2 := by
      show ('[' :: (dumpList (.cons (Json.obj kvs) tl) ++ [']'])).length = _
      simp only [List.length_append, List.length_cons, List.length_nil]
    rw [hlen]
    have hshape : dumpJson (.arr (.cons (Json.obj kvs) tl)) =
        '[' :: '{' :: (z ++ [']']) := by
      show '[' :: (dumpList (.cons (Json.obj kvs) tl) ++ [']']) = _
      rw [hz]
      rfl
    rw [hshape, parseVal_arrNE]
    have hback : ('{' : Char) :: (z ++ [']']) = dumpList (.cons (Json.obj kvs) tl) ++ ']' :: [] := by
      rw [hz]
      rfl
    rw [hback, parseElems_dumpList (jsonListLength (.cons (Json.obj kvs) tl)) _ le_rfl _ [] hl
      (by intro h; cases h)
      (le_trans (elemsNeed_le_dumpList (jsonListLength (.cons (Json.obj kvs) tl)) _ le_rfl hl)
        (by omega))]
    rfl

/-! ## The serializer emits only ASCII -/

theorem hexDigitChar_toNat_lt {d : Nat} (h : d < 16) : (hexDigitChar d).toNat < 128 := by
  interval_cases d <;> decide

theorem hex4_ascii (m : Nat) : ∀ x ∈ hex4 m, x.toNat < 128 := by
  intro x hx
  simp only [hex4, List.mem_cons, List.not_mem_nil, or_false] at hx
  rcases hx with rfl | rfl | rfl | rfl <;>
    exact hexDigitChar_toNat_lt (Nat.mod_lt _ (by norm_num))

theorem escapeChar_ascii (c : Char) : ∀ x ∈ escapeChar c, x.toNat < 128 := by
  unfold escapeChar
  split_ifs with h1 h2 h3 h4 h5 h6 h7 h8 h9 <;> intro x hx
  · simp only [List.mem_cons, List.not_mem_nil, or_false] at hx
    rcases hx with rfl | rfl <;> decide
  · simp only [List.mem_cons, List.not_mem_nil, or_false] at hx
    rcases hx with rfl | rfl <;> decide
  · simp only [List.mem_cons, List.not_mem_nil, or_false] at hx
    rcases hx with rfl | rfl <;> decide
  · simp only [List.mem_cons, List.not_mem_nil, or_false] at hx
    rcases hx with rfl | rfl <;> decide
  · simp only [List.mem_cons, List.not_mem_nil, or_false] at hx
    rcases hx with rfl | rfl <;> decide
  · simp only [List.mem_cons, List.not_mem_nil, or_false] at hx
    rcases hx with rfl | rfl <;> decide
  · simp only [List.mem_cons, List.not_mem_nil, or_false] at hx
    rcases hx with rfl | rfl <;> decide
  · simp only [List.mem_cons, List.not_mem_nil, or_false] at hx
    subst hx
    omega
  · simp only [List.mem_cons] at hx
    rcases hx with rfl | rfl | hx
    · decide
    · decide
    · exact hex4_ascii _ x hx
  · simp only [List.mem_append, List.mem_cons] at hx
    rcases hx with (rfl | rfl | hx) | (rfl | rfl | hx)
    · decide
    · decide
    · exact hex4_ascii _ x hx
    · decide
    · decide
    · exact hex4_ascii _ x hx

theorem escChars_ascii (l : List Char) : ∀ x ∈ escChars l, x.toNat < 128 := by
  induction l with
  | nil => intro x hx; cases hx
  | cons c cs ih =>
    intro x hx
    simp only [escChars, List.mem_append] at hx
    rcases hx with hx | hx
    · exact escapeChar_ascii c x hx
    · exact ih x hx

theorem natChars_ascii (n : Nat) : ∀ x ∈ natChars n, x.toNat < 128 := by
  obtain ⟨d, ds, heq, hd10, _, hds⟩ := natChars_head n
  rw [heq]
  intro x hx
  rcases List.mem_cons.mp hx with rfl | hx
  · rw [digitChar_toNat hd10]; omega
  · have := isDigit_toNat (hds x hx)
    omega

theorem intChars_ascii (m : Int) : ∀ x ∈ intChars m, x.toNat < 128 := by
  unfold intChars
  split_ifs with hm <;> intro x hx
  · rcases List.mem_cons.mp hx with rfl | hx
    · decide
    · exact natChars_ascii _ x hx
  · exact natChars_ascii _ x hx

theorem dump_scalar_ascii {v : Json} (hv : isScalar v = true) :
    ∀ x ∈ dumpJson v, x.toNat < 128 := by
  cases v with
  | null => intro x hx; fin_cases hx <;> decide
  | bool b => cases b <;> (intro x hx; fin_cases hx <;> decide)
  | num n => exact intChars_ascii n
  | str s =>
    intro x hx
    have hx2 : x ∈ '"' :: (escChars s.data ++ ['"']) := hx
    rcases List.mem_cons.mp hx2 with rfl | hx3
    · decide
    · rcases List.mem_append.mp hx3 with hx4 | hx4
      · exact escChars_ascii _ x hx4
      · rcases List.mem_singleton.mp hx4 with rfl
        decide
  | flt s => simp [isScalar] at hv
  | arr xs => simp [isScalar] at hv
  | obj kvs => simp [isScalar] at hv

theorem dumpObj_ascii : ∀ (n : Nat) (kvs : JsonObj), objLength kvs ≤ n →
    scalarObj kvs = true → ∀ x ∈ dumpObj kvs, x.toNat < 128 := by
  intro n
  induction n with
  | zero =>
    intro kvs hlen _ x hx
    cases kvs with
    | nil => cases hx
    | cons k v tl => simp [objLength] at hlen
  | succ m ihn =>
    intro kvs hlen hsc x hx
    cases kvs with
    | nil => cases hx
    | cons k v tl =>
      have hv : isScalar v = true := by
        simp only [scalarObj, Bool.and_eq_true] at hsc
        exact hsc.1
      have htl : scalarObj tl = true := by
        simp only [scalarObj, Bool.and_eq_true] at hsc
        exact hsc.2
      have hkv : ∀ y ∈ ('"' :: escChars k.data ++ ['"']) ++ ':' :: ' ' :: dumpJson v,
          y.toNat < 128 := by
        intro y hy
        rcases List.mem_append.mp hy with hy2 | hy2
        · rcases List.mem_cons.mp hy2 with rfl | hy3
          · decide
          · rcases List.mem_append.mp hy3 with hy4 | hy4
            · exact escChars_ascii _ y hy4
            · rcases List.mem_singleton.mp hy4 with rfl
              decide
        · rcases List.mem_cons.mp hy2 with rfl | hy3
          · decide
          · rcases List.mem_cons.mp hy3 with rfl | hy4
            · decide
            · exact dump_scalar_ascii hv y hy4
      cases tl with
      | nil => exact hkv x hx
      | cons k2 v2 tl2 =>
        have hx2 : x ∈ (('"' :: escChars k.data ++ ['"']) ++ ':' :: ' ' :: dumpJson v) ++
            ',' :: ' ' :: dumpObj (.cons k2 v2 tl2) := hx
        rcases List.mem_append.mp hx2 with hx3 | hx3
        · exact hkv x hx3
        · rcases List.mem_cons.mp hx3 with rfl | hx4
          · decide
          · rcases List.mem_cons.mp hx4 with rfl | hx5
            · decide
            · exact ihn (.cons k2 v2 tl2) (by simp only [objLength] at hlen ⊢; omega) htl x hx5

theorem dumpList_ascii : ∀ (n : Nat) (l : JsonList), jsonListLength l ≤ n →
    threadObjsList l = true → ∀ x ∈ dumpList l, x.toNat < 128 := by
  intro n
  induction n with
  | zero =>
    intro l hlen _ x hx
    cases l with
    | nil => cases hx
    | cons y tl => simp [jsonListLength] at hlen
  | succ m ihn =>
    intro l hlen hl x hx
    cases l with
    | nil => cases hx
    | cons y tl =>
      obtain ⟨kvs, rfl⟩ : ∃ kvs, y = Json.obj kvs := by
        simp only [threadObjsList, Bool.and_eq_true] at hl
        cases y with
        | obj kvs => exact ⟨kvs, rfl⟩
        | null => simp at hl
        | bool b => simp at hl
        | num n => simp at hl
        | flt s => simp at hl
        | str s => simp at hl
        | arr xs => simp at hl
      have hkv : scalarObj kvs = true := by
        simp only [threadObjsList, Bool.and_eq_true] at hl
        exact hl.1
      have htl : threadObjsList tl = true := by
        simp only [threadObjsList, Bool.and_eq_true] at hl
        exact hl.2
      have hobj : ∀ z ∈ dumpJson (.obj kvs), z.toNat < 128 := by
        intro z hz
        have hz2 : z ∈ '{' :: (dumpObj kvs ++ ['}']) := hz
        rcases List.mem_cons.mp hz2 with rfl | hz3
        · decide
        · rcases List.mem_append.mp hz3 with hz4 | hz4
          · exact dumpObj_ascii (objLength kvs) kvs le_rfl hkv z hz4
          · rcases List.mem_singleton.mp hz4 with rfl
            decide
      cases tl with
      | nil => exact hobj x hx
      | cons y2 tl2 =>
        have hx2 : x ∈ dumpJson (.obj kvs) ++ ',' :: ' ' :: dumpList (.cons y2 tl2) := hx
        rcases List.mem_append.mp hx2 with hx3 | hx3
        · exact hobj x hx3
        · rcases List.mem_cons.mp hx3 with rfl | hx4
          · decide
          · rcases List.mem_cons.mp hx4 with rfl | hx5
            · decide
            · exact ihn (.cons y2 tl2) (by simp only [jsonListLength] at hlen ⊢; omega) htl x hx5

theorem json_dumps_threads_ascii (th : List Thread)
    (hl : threadObjsList (jsonListOfList (th.map thread_to_dict)) = true) :
    ∀ x ∈ json_dumps_threads th, x.toNat < 128 := by
  intro x hx
  have hx2 : x ∈ '[' :: (dumpList (jsonListOfList (th.map thread_to_dict)) ++ [']']) := hx
  rcases List.mem_cons.mp hx2 with rfl | hx3
  · decide
  · rcases List.mem_append.mp hx3 with hx4 | hx4
    · exact dumpList_ascii (jsonListLength (jsonListOfList (th.map thread_to_dict))) _ le_rfl hl
        x hx4
    · rcases List.mem_singleton.mp hx4 with rfl
      decide

/-! ## UTF-8 on ASCII text -/

theorem utf8Encode_ascii : ∀ (cs : List Char), (∀ x ∈ cs, x.toNat < 128) →
    utf8Encode cs = cs.map Char.toNat := by
  intro cs
  induction cs with
  | nil => intro _; rfl
  | cons c cs ih =>
    intro h
    show charUtf8 c ++ utf8Encode cs = c.toNat :: cs.map Char.toNat
    have hc : charUtf8 c = [c.toNat] := by
      show (if c.toNat < 128 then [c.toNat]
        else if c.toNat < 2048 then [192 + c.toNat / 64, 128 + c.toNat % 64]
        else if c.toNat < 65536 then
          [224 + c.toNat / 4096, 128 + c.toNat / 64 % 64, 128 + c.toNat % 64]
        else [240 + c.toNat / 262144, 128 + c.toNat / 4096 % 64, 128 + c.toNat / 64 % 64,
          128 + c.toNat % 64]) = [c.toNat]
      rw [if_pos (h c (List.mem_cons_self _ _))]
    rw [hc, ih (fun x hx => h x (List.mem_cons_of_mem _ hx))]
    rfl

theorem utf8Decode_map_toNat : ∀ (cs : List Char), (∀ x ∈ cs, x.toNat < 128) →
    utf8Decode (cs.map Char.toNat) = some cs := by
  intro cs
  induction cs with
  | nil => intro _; rfl
  | cons c cs ih =>
    intro h
    show utf8Decode (c.toNat :: cs.map Char.toNat) = some (c :: cs)
    have h0 : utf8Decode (c.toNat :: cs.map Char.toNat) =
        (if c.toNat < 128 then
          (utf8Decode (cs.map Char.toNat)).map (fun l => Char.ofNat c.toNat :: l)
        else if 194 ≤ c.toNat ∧ c.toNat ≤ 223 then utf8Tail1 c.toNat (cs.map Char.toNat)
        else if 224 ≤ c.toNat ∧ c.toNat ≤ 239 then utf8Tail2 c.toNat (cs.map Char.toNat)
        else if 240 ≤ c.toNat ∧ c.toNat ≤ 244 then utf8Tail3 c.toNat (cs.map Char.toNat)
        else none) := rfl
    rw [h0, if_pos (h c (List.mem_cons_self _ _)), ih (fun x hx => h x (List.mem_cons_of_mem _ hx))]
    show some (Char.ofNat c.toNat :: cs) = some (c :: cs)
    rw [Char.ofNat_toNat]

/-! ## Structure of a successful encode -/

theorem packU32_ok_elim {n : Nat} {bs : List Nat} (h : packU32 n = .ok bs) :
    n < 4294967296 ∧ bs = u32le n := by
  by_cases hn : n < 4294967296
  · have h2 := (h.symm.trans (packU32_eq hn))
    injection h2 with h3
    exact ⟨hn, h3⟩
  · rw [packU32, if_neg hn] at h
    exact Except.noConfusion h

theorem packI32_ok_elim {x : Int} {bs : List Nat} (h : packI32 x = .ok bs) :
    -2147483648 ≤ x ∧ x < 2147483648 ∧ bs = i32le x := by
  by_cases hx : -2147483648 ≤ x ∧ x < 2147483648
  · have h2 := (h.symm.trans (packI32_eq hx.1 hx.2))
    injection h2 with h3
    exact ⟨hx.1, hx.2, h3⟩
  · rw [packI32, if_neg hx] at h
    exact Except.noConfusion h

theorem u32le_length (n : Nat) : (u32le n).length = 4 := rfl

theorem i32le_length (x : Int) : (i32le x).length = 4 := rfl

theorem unpackStitch_i32 {x y c : Int}
    (hx1 : -2147483648 ≤ x) (hx2 : x < 2147483648)
    (hy1 : -2147483648 ≤ y) (hy2 : y < 2147483648)
    (hc1 : -2147483648 ≤ c) (hc2 : c < 2147483648) (rest : List Nat) :
    unpackStitch (i32le x ++ (i32le y ++ (i32le c ++ rest))) = .ok ((x, y, c), rest) := by
  unfold unpackStitch
  rw [unpackI32_i32le x hx1 hx2]
  show (match unpackI32 (i32le y ++ (i32le c ++ rest)) with
        | Except.error e => Except.error e
        | Except.ok (yv, r2) =>
          match unpackI32 r2 with
          | Except.error e => Except.error e
          | Except.ok (cv, r3) => Except.ok ((x, yv, cv), r3)) = .ok ((x, y, c), rest)
  rw [unpackI32_i32le y hy1 hy2]
  show (match unpackI32 (i32le c ++ rest) with
        | Except.error e => Except.error e
        | Except.ok (cv, r3) => Except.ok ((x, y, cv), r3)) = .ok ((x, y, c), rest)
  rw [unpackI32_i32le c hc1 hc2]

theorem packStitches_read : ∀ (st : List (Int × Int × Int)) (sb : List Nat),
    packStitches st = .ok sb →
    sb.length = 12 * st.length ∧
      ∀ rest, readStitches st.length (sb ++ rest) = .ok (st, rest) := by
  intro st
  induction st with
  | nil =>
    intro sb h
    injection h with h2
    subst h2
    exact ⟨rfl, fun rest => rfl⟩
  | cons s ss ih =>
    intro sb h
    rw [show packStitches (s :: ss) =
        (match packI32 s.1 with
         | Except.error e => Except.error e
         | Except.ok bx =>
           match packI32 s.2.1 with
           | Except.error e => Except.error e
           | Except.ok bby =>
             match packI32 s.2.2 with
             | Except.error e => Except.error e
             | Except.ok bc =>
               match packStitches ss with
               | Except.error e => Except.error e
               | Except.ok btl => Except.ok (bx ++ bby ++ bc ++ btl)) from rfl] at h
    cases h1 : packI32 s.1 with
    | error e => rw [h1] at h; exact Except.noConfusion h
    | ok bx =>
      rw [h1] at h
      cases h2 : packI32 s.2.1 with
      | error e => rw [h2] at h; exact Except.noConfusion h
      | ok bby =>
        rw [h2] at h
        cases h3 : packI32 s.2.2 with
        | error e => rw [h3] at h; exact Except.noConfusion h
        | ok bc =>
          rw [h3] at h
          cases h4 : packStitches ss with
          | error e => rw [h4] at h; exact Except.noConfusion h
          | ok btl =>
            rw [h4] at h
            have hout : bx ++ bby ++ bc ++ btl = sb := by injection h
            obtain ⟨hxr1, hxr2, hbx⟩ := packI32_ok_elim h1
            obtain ⟨hyr1, hyr2, hby⟩ := packI32_ok_elim h2
            obtain ⟨hcr1, hcr2, hbc⟩ := packI32_ok_elim h3
            obtain ⟨hlen, hread⟩ := ih btl h4
            subst hbx hby hbc
            constructor
            · rw [← hout]
              simp only [List.length_append, i32le_length, hlen, List.length_cons]
              ring
            · intro rest
              rw [← hout]
              show readStitches (ss.length + 1)
                ((i32le s.1 ++ i32le s.2.1 ++ i32le s.2.2 ++ btl) ++ rest) = _
              have hassoc : (i32le s.1 ++ i32le s.2.1 ++ i32le s.2.2 ++ btl) ++ rest =
                  i32le s.1 ++ (i32le s.2.1 ++ (i32le s.2.2 ++ (btl ++ rest))) := by
                simp only [List.append_assoc]
              rw [hassoc]
              unfold readStitches
              rw [unpackStitch_i32 hxr1 hxr2 hyr1 hyr2 hcr1 hcr2]
              show (match readStitches ss.length (btl ++ rest) with
                    | Except.error e => Except.error e
                    | Except.ok (st2, r2) => Except.ok (s :: st2, r2)) = _
              rw [hread rest]

theorem embEncode_ok_elim {st : List (Int × Int × Int)} {th : List Thread} {out : List Nat}
    (h : embEncode st th = .ok out) :
    ∃ sb, packStitches st = .ok sb ∧ st.length < 4294967296 ∧
      (utf8Encode (json_dumps_threads th)).length < 4294967296 ∧
      out = u32le st.length ++ sb ++
        u32le (utf8Encode (json_dumps_threads th)).length ++
        utf8Encode (json_dumps_threads th) := by
  rw [show embEncode st th =
      (match packU32 st.length with
       | Except.error e => Except.error e
       | Except.ok countB =>
         match packStitches st with
         | Except.error e => Except.error e
         | Except.ok stitchB =>
           match packU32 (utf8Encode (json_dumps_threads th)).length with
           | Except.error e => Except.error e
           | Except.ok sizeB =>
             Except.ok (countB ++ stitchB ++ sizeB ++ utf8Encode (json_dumps_threads th)))
    from rfl] at h
  cases h1 : packU32 st.length with
  | error e => rw [h1] at h; exact Except.noConfusion h
  | ok countB =>
    rw [h1] at h
    cases h2 : packStitches st with
    | error e => rw [h2] at h; exact Except.noConfusion h
    | ok stitchB =>
      rw [h2] at h
      cases h3 : packU32 (utf8Encode (json_dumps_threads th)).length with
      | error e => rw [h3] at h; exact Except.noConfusion h
      | ok sizeB =>
        rw [h3] at h
        have hout : countB ++ stitchB ++ sizeB ++ utf8Encode (json_dumps_threads th) = out := by
          injection h
        obtain ⟨hlt1, hcb⟩ := packU32_ok_elim h1
        obtain ⟨hlt2, hsb⟩ := packU32_ok_elim h3
        exact ⟨stitchB, rfl, hlt1, hlt2, by rw [← hout, hcb, hsb]⟩

/-! ## Decoding what was encoded -/

theorem toList_ofList (xs : List Json) : JsonList.toList (jsonListOfList xs) = xs := by
  induction xs with
  | nil => rfl
  | cons x xs ih => simp only [jsonListOfList, JsonList.toList, ih]

theorem dict_to_thread_inv (t : Thread) : dict_to_thread (thread_to_dict t) = .ok t := rfl

theorem mapThreads_thread_to_dict (th : List Thread) :
    mapThreads (th.map thread_to_dict) = .ok th := by
  induction th with
  | nil => rfl
  | cons t ts ih =>
    show (match mapThreads (List.map thread_to_dict ts) with
          | Except.error e => Except.error e
          | Except.ok ts2 => Except.ok (t :: ts2)) = Except.ok (t :: ts)
    rw [ih]

theorem threadObjsList_of_scalar (th : List Thread) (h : ∀ t ∈ th, scalarThread t = true) :
    threadObjsList (jsonListOfList (th.map thread_to_dict)) = true := by
  induction th with
  | nil => rfl
  | cons t ts ih =>
    have ht := h t (List.mem_cons_self _ _)
    simp only [scalarThread, Bool.and_eq_true] at ht
    obtain ⟨⟨⟨⟨⟨⟨h1, h2⟩, h3⟩, h4⟩, h5⟩, h6⟩, h7⟩ := ht
    show (scalarObj (.cons "hex_color" t.color
      (.cons "description" t.description
        (.cons "catalog_number" t.catalog_number
          (.cons "details" t.details
            (.cons "brand" t.brand
              (.cons "chart" t.chart
                (.cons "weight" t.weight .nil))))))) &&
      threadObjsList (jsonListOfList (ts.map thread_to_dict))) = true
    rw [ih (fun x hx => h x (List.mem_cons_of_mem _ hx))]
    simp only [scalarObj, Bool.and_eq_true]
    exact ⟨⟨h1, h2, h3, h4, h5, h6, h7, trivial⟩, trivial⟩

theorem decodeMetadata_encoded (th : List Thread) (hth : ∀ t ∈ th, scalarThread t = true) :
    decodeMetadata (utf8Encode (json_dumps_threads th)) = .ok th := by
  have hobjs := threadObjsList_of_scalar th hth
  have hascii := json_dumps_threads_ascii th hobjs
  have h1 : utf8Decode (utf8Encode (json_dumps_threads th)) = some (json_dumps_threads th) := by
    rw [utf8Encode_ascii _ hascii]
    exact utf8Decode_map_toNat _ hascii
  have h2 : jsonOfBytes (utf8Encode (json_dumps_threads th)) =
      some (.arr (jsonListOfList (th.map thread_to_dict))) := by
    unfold jsonOfBytes
    rw [h1]
    exact pyJsonLoads_dump_arr _ hobjs
  unfold decodeMetadata
  rw [h2]
  show (match pyIterate (.arr (jsonListOfList (th.map thread_to_dict))) with
        | Except.error e => Except.error e
        | Except.ok items => mapThreads items) = Except.ok th
  rw [show pyIterate (.arr (jsonListOfList (th.map thread_to_dict))) =
    .ok ((jsonListOfList (th.map thread_to_dict)).toList) from rfl]
  show mapThreads ((jsonListOfList (th.map thread_to_dict)).toList) = .ok th
  rw [toList_ofList, mapThreads_thread_to_dict]

theorem embDecode_embEncode {st : List (Int × Int × Int)} {th : List Thread} {out : List Nat}
    (hscalar : ∀ t ∈ th, scalarThread t = true)
    (henc : embEncode st th = .ok out) :
    embDecode out = .ok (st, th) := by
  obtain ⟨sb, hps, hlt1, hlt2, hout⟩ := embEncode_ok_elim henc
  obtain ⟨hlen12, hread⟩ := packStitches_read st sb hps
  subst hout
  unfold embDecode
  have hassoc : u32le st.length ++ sb ++
      u32le (utf8Encode (json_dumps_threads th)).length ++
      utf8Encode (json_dumps_threads th) =
      u32le st.length ++ (sb ++
        (u32le (utf8Encode (json_dumps_threads th)).length ++
          utf8Encode (json_dumps_threads th))) := by
    simp only [List.append_assoc]
  rw [hassoc, unpackU32_u32le _ hlt1]
  show (match readStitches st.length (sb ++
        (u32le (utf8Encode (json_dumps_threads th)).length ++
          utf8Encode (json_dumps_threads th))) with
      | Except.error e => Except.error e
      | Except.ok (stitches, bs2) =>
        match unpackU32 bs2 with
        | Except.error e => Except.error e
        | Except.ok (threads_size, bs3) =>
          match decodeMetadata (bs3.take threads_size) with
          | Except.error e => Except.error e
          | Except.ok threads => Except.ok (stitches, threads)) = Except.ok (st, th)
  rw [hread]
  show (match unpackU32 (u32le (utf8Encode (json_dumps_threads th)).length ++
        utf8Encode (json_dumps_threads th)) with
      | Except.error e => Except.error e
      | Except.ok (threads_size, bs3) =>
        match decodeMetadata (bs3.take threads_size) with
        | Except.error e => Except.error e
        | Except.ok threads => Except.ok (st, threads)) = Except.ok (st, th)
  rw [unpackU32_u32le _ hlt2]
  show (match decodeMetadata ((utf8Encode (json_dumps_threads th)).take
        (utf8Encode (json_dumps_threads th)).length) with
      | Except.error e => Except.error e
      | Except.ok threads => Except.ok (st, threads)) = Except.ok (st, th)
  rw [List.take_length, decodeMetadata_encoded th hscalar]

/-! ## Reading a layout is insensitive to trailing bytes -/

theorem unpackI32_append {bs : List Nat} {v : Int} {r : List Nat}
    (h : unpackI32 bs = .ok (v, r)) (X : List Nat) :
    unpackI32 (bs ++ X) = .ok (v, r ++ X) := by
  match bs with
  | b0 :: b1 :: b2 :: b3 :: rest =>
    injection h with h2
    have hv : toI32 (b0 + 256 * b1 + 65536 * b2 + 16777216 * b3) = v := congrArg Prod.fst h2
    have hr : rest = r := congrArg Prod.snd h2
    subst hv hr
    rfl
  | [] => exact Except.noConfusion h
  | [_] => exact Except.noConfusion h
  | [_, _] => exact Except.noConfusion h
  | [_, _, _] => exact Except.noConfusion h

theorem unpackStitch_append {bs : List Nat} {s : Int × Int × Int} {r : List Nat}
    (h : unpackStitch bs = .ok (s, r)) (X : List Nat) :
    unpackStitch (bs ++ X) = .ok (s, r ++ X) := by
  unfold unpackStitch at h ⊢
  cases h1 : unpackI32 bs with
  | error e => rw [h1] at h; exact Except.noConfusion h
  | ok p =>
    obtain ⟨x, r1⟩ := p
    rw [h1] at h
    replace h : (match unpackI32 r1 with
      | Except.error e => Except.error e
      | Except.ok (y, r2) =>
        match unpackI32 r2 with
        | Except.error e => Except.error e
        | Except.ok (c, r3) => Except.ok ((x, y, c), r3)) = Except.ok (s, r) := h
    rw [unpackI32_append h1 X]
    cases h2 : unpackI32 r1 with
    | error e => rw [h2] at h; exact Except.noConfusion h
    | ok q =>
      obtain ⟨y, r2⟩ := q
      rw [h2] at h
      replace h : (match unpackI32 r2 with
        | Except.error e => Except.error e
        | Except.ok (c, r3) => Except.ok ((x, y, c), r3)) = Except.ok (s, r) := h
      show (match unpackI32 (r1 ++ X) with
        | Except.error e => Except.error e
        | Except.ok (y2, r2) =>
          match unpackI32 r2 with
          | Except.error e => Except.error e
          | Except.ok (c, r3) => Except.ok ((x, y2, c), r3)) = Except.ok (s, r ++ X)
      rw [unpackI32_append h2 X]
      cases h3 : unpackI32 r2 with
      | error e => rw [h3] at h; exact Except.noConfusion h
      | ok w =>
        obtain ⟨c, r3⟩ := w
        rw [h3] at h
        replace h : Except.ok ((x, y, c), r3) = Except.ok (s, r) := h
        injection h with h4
        have hs : (x, y, c) = s := congrArg Prod.fst h4
        have hr : r3 = r := congrArg Prod.snd h4
        subst hs hr
        show (match unpackI32 (r2 ++ X) with
          | Except.error e => Except.error e
          | Except.ok (c2, r4) => Except.ok ((x, y, c2), r4)) = Except.ok ((x, y, c), r3 ++ X)
        rw [unpackI32_append h3 X]

theorem readStitches_append : ∀ (n : Nat) (bs : List Nat) (st : List (Int × Int × Int))
    (X : List Nat), readStitches n bs = .ok (st, []) →
    readStitches n (bs ++ X) = .ok (st, X) := by
  intro n
  induction n with
  | zero =>
    intro bs st X h
    replace h : Except.ok (([] : List (Int × Int × Int)), bs) = Except.ok (st, []) := h
    injection h with h2
    have hst : ([] : List (Int × Int × Int)) = st := congrArg Prod.fst h2
    have hbs : bs = [] := congrArg Prod.snd h2
    subst hbs
    rw [← hst]
    rfl
  | succ m ih =>
    intro bs st X h
    unfold readStitches at h ⊢
    cases h1 : unpackStitch bs with
    | error e => rw [h1] at h; exact Except.noConfusion h
    | ok p =>
      obtain ⟨s, r1⟩ := p
      rw [h1] at h
      replace h : (match readStitches m r1 with
        | Except.error e => Except.error e
        | Except.ok (st2, r2) => Except.ok (s :: st2, r2)) = Except.ok (st, []) := h
      rw [unpackStitch_append h1 X]
      cases h2 : readStitches m r1 with
      | error e => rw [h2] at h; exact Except.noConfusion h
      | ok q =>
        obtain ⟨st2, r2⟩ := q
        rw [h2] at h
        replace h : Except.ok (s :: st2, r2) = Except.ok (st, []) := h
        injection h with h3
        have hst : s :: st2 = st := congrArg Prod.fst h3
        have hr2 : r2 = [] := congrArg Prod.snd h3
        subst hr2
        show (match readStitches m (r1 ++ X) with
          | Except.error e => Except.error e
          | Except.ok (st2, r2) => Except.ok (s :: st2, r2)) = Except.ok (st, X)
        rw [ih r1 st2 X h2, ← hst]

/-! ## Decoding a well-formed layout -/

theorem embDecode_layout (N : Nat) (hN : N < 4294967296) (sb : List Nat)
    (hsb : sb.length = 12 * N) :
    ∃ st, st.length = N ∧ ∀ (M : Nat), M < 4294967296 → ∀ (tail : List Nat),
      embDecode (u32le N ++ sb ++ u32le M ++ tail) =
        (match decodeMetadata (tail.take M) with
         | Except.error e => Except.error e
         | Except.ok threads => Except.ok (st, threads)) := by
  obtain ⟨st, hread0, hstlen⟩ := readStitches_of_le (show 12 * N ≤ sb.length by omega)
  have hdropnil : sb.drop (12 * N) = [] := by
    rw [← hsb, List.drop_length]
  rw [hdropnil] at hread0
  refine ⟨st, hstlen, ?_⟩
  intro M hM tail
  have hread : readStitches N (sb ++ (u32le M ++ tail)) = .ok (st, u32le M ++ tail) :=
    readStitches_append N sb st (u32le M ++ tail) hread0
  unfold embDecode
  have hassoc : u32le N ++ sb ++ u32le M ++ tail =
      u32le N ++ (sb ++ (u32le M ++ tail)) := by
    simp only [List.append_assoc]
  rw [hassoc, unpackU32_u32le _ hN]
  show (match readStitches N (sb ++ (u32le M ++ tail)) with
      | Except.error e => Except.error e
      | Except.ok (stitches, bs2) =>
        match unpackU32 bs2 with
        | Except.error e => Except.error e
        | Except.ok (threads_size, bs3) =>
          match decodeMetadata (bs3.take threads_size) with
          | Except.error e => Except.error e
          | Except.ok threads => Except.ok (stitches, threads)) = _
  rw [hread]
  show (match unpackU32 (u32le M ++ tail) with
      | Except.error e => Except.error e
      | Except.ok (threads_size, bs3) =>
        match decodeMetadata (bs3.take threads_size) with
        | Except.error e => Except.error e
        | Except.ok threads => Except.ok (st, threads)) = _
  rw [unpackU32_u32le _ hM]

/-! ## Metadata phase case analysis -/

theorem decodeMetadata_none {m : List Nat} (h : jsonOfBytes m = none) :
    decodeMetadata m = .error .malformedMetadataError := by
  unfold decodeMetadata
  rw [h]

theorem decodeMetadata_some {m : List Nat} {j : Json} (h : jsonOfBytes m = some j) :
    decodeMetadata m =
      (match pyIterate j with
       | Except.error e => Except.error e
       | Except.ok items => mapThreads items) := by
  unfold decodeMetadata
  rw [h]

theorem pyIterate_notIterable {j : Json} (h : notIterable j = true) :
    pyIterate j = .error .typeError := by
  cases j with
  | null => rfl
  | bool b => rfl
  | num n => rfl
  | flt s => rfl
  | str s => simp [notIterable] at h
  | arr xs => simp [notIterable] at h
  | obj kvs => simp [notIterable] at h

theorem dict_to_thread_not_obj {j : Json} (h : isObj j = false) :
    dict_to_thread j = .error .attributeError := by
  cases j with
  | obj kvs => simp [isObj] at h
  | null => rfl
  | bool b => rfl
  | num n => rfl
  | flt s => rfl
  | str s => rfl
  | arr xs => rfl

theorem mapThreads_cons_obj (kvs : JsonObj) (ds : List Json) :
    mapThreads (Json.obj kvs :: ds) =
      (match mapThreads ds with
       | Except.error e => Except.error e
       | Except.ok ts => Except.ok ((⟨pyDictGet kvs "hex_color", pyDictGet kvs "description",
           pyDictGet kvs "catalog_number", pyDictGet kvs "details", pyDictGet kvs "brand",
           pyDictGet kvs "chart", pyDictGet kvs "weight"⟩ : Thread) :: ts)) := rfl

theorem isObj_elim {j : Json} (h : isObj j = true) : ∃ kvs, j = Json.obj kvs := by
  cases j with
  | obj kvs => exact ⟨kvs, rfl⟩
  | null => simp [isObj] at h
  | bool b => simp [isObj] at h
  | num n => simp [isObj] at h
  | flt s => simp [isObj] at h
  | str s => simp [isObj] at h
  | arr xs => simp [isObj] at h

theorem mapThreads_all_objs : ∀ (items : List Json), (∀ x ∈ items, isObj x = true) →
    ∃ ts, mapThreads items = .ok ts := by
  intro items
  induction items with
  | nil => exact fun _ => ⟨[], rfl⟩
  | cons d ds ih =>
    intro h
    obtain ⟨kvs, rfl⟩ := isObj_elim (h d (List.mem_cons_self _ _))
    obtain ⟨ts, hts⟩ := ih (fun x hx => h x (List.mem_cons_of_mem _ hx))
    exact ⟨_, by rw [mapThreads_cons_obj, hts]⟩

theorem mapThreads_has_nonobj : ∀ (items : List Json), (∃ x ∈ items, isObj x = false) →
    mapThreads items = .error .attributeError := by
  intro items
  induction items with
  | nil => rintro ⟨x, hx, _⟩; cases hx
  | cons d ds ih =>
    rintro ⟨x, hx, hxno⟩
    by_cases hd : isObj d = true
    · obtain ⟨kvs, rfl⟩ := isObj_elim hd
      have hxtl : x ∈ ds := by
        rcases List.mem_cons.mp hx with rfl | hx2
        · rw [hd] at hxno; exact absurd hxno (by simp)
        · exact hx2
      rw [mapThreads_cons_obj, ih ⟨x, hxtl, hxno⟩]
    · have hdf : isObj d = false := by
        cases hdd : isObj d
        · rfl
        · exact absurd hdd hd
      show (match dict_to_thread d with
        | Except.error e => Except.error e
        | Except.ok t =>
          match mapThreads ds with
          | Except.error e => Except.error e
          | Except.ok ts => Except.ok (t :: ts)) = Except.error PyError.attributeError
      rw [dict_to_thread_not_obj hdf]

/-! ## Dictionary and objSnoc lemmas -/

theorem four_bytes {bs : List Nat} (h : ¬ bs.length < 4) :
    ∃ b0 b1 b2 b3 rest, bs = b0 :: b1 :: b2 :: b3 :: rest := by
  match bs with
  | b0 :: b1 :: b2 :: b3 :: rest => exact ⟨b0, b1, b2, b3, rest, rfl⟩
  | [] => simp at h
  | [_] => simp at h
  | [_, _] => simp at h
  | [_, _, _] => simp at h

theorem pyDictGet_of_not_hasKey (kvs : JsonObj) (k : String) (h : hasKey kvs k = false) :
    pyDictGet kvs k = .null := by
  cases kvs with
  | nil => rfl
  | cons k2 v tl =>
    have h2 : (k2 == k) = false ∧ hasKey tl k = false := by
      simpa [hasKey] using h
    show (if hasKey tl k then pyDictGet tl k else if k2 == k then v else .null) = .null
    rw [h2.2, h2.1]
    simp

theorem hasKey_objSnoc_eq : ∀ (d : JsonObj) (k : String) (v : Json) (k2 : String),
    hasKey (objSnoc d k v) k2 = (hasKey d k2 || k == k2)
  | .nil, k, v, k2 => by
    show (k == k2 || false) = (false || k == k2)
    simp
  | .cons k3 v3 tl, k, v, k2 => by
    show (k3 == k2 || hasKey (objSnoc tl k v) k2) = ((k3 == k2 || hasKey tl k2) || k == k2)
    rw [hasKey_objSnoc_eq tl k v k2, Bool.or_assoc]

theorem pyDictGet_objSnoc_eq : ∀ (d : JsonObj) (k : String) (v : Json) (k2 : String),
    pyDictGet (objSnoc d k v) k2 = (if k == k2 then v else pyDictGet d k2)
  | .nil, k, v, k2 => by
    show (if hasKey JsonObj.nil k2 then pyDictGet JsonObj.nil k2
          else if k == k2 then v else Json.null) =
        (if k == k2 then v else pyDictGet JsonObj.nil k2)
    cases h : k == k2 <;> simp [hasKey, pyDictGet, h]
  | .cons k3 v3 tl, k, v, k2 => by
    show (if hasKey (objSnoc tl k v) k2 then pyDictGet (objSnoc tl k v) k2
          else if k3 == k2 then v3 else Json.null) =
        (if k == k2 then v
         else if hasKey tl k2 then pyDictGet tl k2 else if k3 == k2 then v3 else Json.null)
    rw [hasKey_objSnoc_eq tl k v k2, pyDictGet_objSnoc_eq tl k v k2]
    cases hk : k == k2 <;> cases htl : hasKey tl k2 <;> simp [hk, htl]

/-! ## packStitches and bytes of the layout -/

theorem packI32_bad {x : Int} (h : ¬ inI32 x) : packI32 x = .error .packError := by
  rw [packI32, if_neg (show ¬ (-2147483648 ≤ x ∧ x < 2147483648) from h)]

theorem packU32_bad {n : Nat} (h : ¬ n < 4294967296) : packU32 n = .error .packError := by
  rw [packU32, if_neg h]

theorem packStitches_ok_of_ranges : ∀ (st : List (Int × Int × Int)),
    (∀ s ∈ st, stitchInRange s) → packStitches st = .ok (stitchesBytes st) := by
  intro st
  induction st with
  | nil => exact fun _ => rfl
  | cons a tl ih =>
    intro h
    obtain ⟨hx, hy, hc⟩ := h a (List.mem_cons_self _ _)
    show (match packI32 a.1 with
      | Except.error e => Except.error e
      | Except.ok bx =>
        match packI32 a.2.1 with
        | Except.error e => Except.error e
        | Except.ok bby =>
          match packI32 a.2.2 with
          | Except.error e => Except.error e
          | Except.ok bc =>
            match packStitches tl with
            | Except.error e => Except.error e
            | Except.ok btl => Except.ok (bx ++ bby ++ bc ++ btl)) =
      Except.ok (stitchesBytes (a :: tl))
    rw [packI32_eq hx.1 hx.2]
    show (match packI32 a.2.1 with
      | Except.error e => Except.error e
      | Except.ok bby =>
        match packI32 a.2.2 with
        | Except.error e => Except.error e
        | Except.ok bc =>
          match packStitches tl with
          | Except.error e => Except.error e
          | Except.ok btl => Except.ok (i32le a.1 ++ bby ++ bc ++ btl)) = _
    rw [packI32_eq hy.1 hy.2]
    show (match packI32 a.2.2 with
      | Except.error e => Except.error e
      | Except.ok bc =>
        match packStitches tl with
        | Except.error e => Except.error e
        | Except.ok btl => Except.ok (i32le a.1 ++ i32le a.2.1 ++ bc ++ btl)) = _
    rw [packI32_eq hc.1 hc.2]
    show (match packStitches tl with
      | Except.error e => Except.error e
      | Except.ok btl => Except.ok (i32le a.1 ++ i32le a.2.1 ++ i32le a.2.2 ++ btl)) = _
    rw [ih (fun s hs => h s (List.mem_cons_of_mem _ hs))]
    rfl

theorem packStitches_bad : ∀ (st : List (Int × Int × Int)),
    (∃ s ∈ st, ¬ stitchInRange s) → packStitches st = .error .packError := by
  intro st
  induction st with
  | nil => rintro ⟨s, hs, _⟩; cases hs
  | cons a tl ih =>
    rintro ⟨s, hs, hbad⟩
    by_cases ha : stitchInRange a
    · have htl : ∃ s ∈ tl, ¬ stitchInRange s := by
        rcases List.mem_cons.mp hs with rfl | h2
        · exact absurd ha hbad
        · exact ⟨s, h2, hbad⟩
      obtain ⟨hx, hy, hc⟩ := ha
      show (match packI32 a.1 with
        | Except.error e => Except.error e
        | Except.ok bx =>
          match packI32 a.2.1 with
          | Except.error e => Except.error e
          | Except.ok bby =>
            match packI32 a.2.2 with
            | Except.error e => Except.error e
            | Except.ok bc =>
              match packStitches tl with
              | Except.error e => Except.error e
              | Except.ok btl => Except.ok (bx ++ bby ++ bc ++ btl)) =
        Except.error PyError.packError
      rw [packI32_eq hx.1 hx.2]
      show (match packI32 a.2.1 with
        | Except.error e => Except.error e
        | Except.ok bby =>
          match packI32 a.2.2 with
          | Except.error e => Except.error e
          | Except.ok bc =>
            match packStitches tl with
            | Except.error e => Except.error e
            | Except.ok btl => Except.ok (i32le a.1 ++ bby ++ bc ++ btl)) = _
      rw [packI32_eq hy.1 hy.2]
      show (match packI32 a.2.2 with
        | Except.error e => Except.error e
        | Except.ok bc =>
          match packStitches tl with
          | Except.error e => Except.error e
          | Except.ok btl => Except.ok (i32le a.1 ++ i32le a.2.1 ++ bc ++ btl)) = _
      rw [packI32_eq hc.1 hc.2]
      show (match packStitches tl with
        | Except.error e => Except.error e
        | Except.ok btl =>
          Except.ok (i32le a.1 ++ i32le a.2.1 ++ i32le a.2.2 ++ btl)) = _
      rw [ih htl]
    · by_cases hx : inI32 a.1
      · by_cases hy : inI32 a.2.1
        · have hc : ¬ inI32 a.2.2 := fun hc => ha ⟨hx, hy, hc⟩
          show (match packI32 a.1 with
            | Except.error e => Except.error e
            | Except.ok bx =>
              match packI32 a.2.1 with
              | Except.error e => Except.error e
              | Except.ok bby =>
                match packI32 a.2.2 with
                | Except.error e => Except.error e
                | Except.ok bc =>
                  match packStitches tl with
                  | Except.error e => Except.error e
                  | Except.ok btl => Except.ok (bx ++ bby ++ bc ++ btl)) =
            Except.error PyError.packError
          rw [packI32_eq hx.1 hx.2]
          show (match packI32 a.2.1 with
            | Except.error e => Except.error e
            | Except.ok bby =>
              match packI32 a.2.2 with
              | Except.error e => Except.error e
              | Except.ok bc =>
                match packStitches tl with
                | Except.error e => Except.error e
                | Except.ok btl => Except.ok (i32le a.1 ++ bby ++ bc ++ btl)) = _
          rw [packI32_eq hy.1 hy.2]
          show (match packI32 a.2.2 with
            | Except.error e => Except.error e
            | Except.ok bc =>
              match packStitches tl with
              | Except.error e => Except.error e
              | Except.ok btl => Except.ok (i32le a.1 ++ i32le a.2.1 ++ bc ++ btl)) = _
          rw [packI32_bad hc]
        · show (match packI32 a.1 with
            | Except.error e => Except.error e
            | Except.ok bx =>
              match packI32 a.2.1 with
              | Except.error e => Except.error e
              | Except.ok bby =>
                match packI32 a.2.2 with
                | Except.error e => Except.error e
                | Except.ok bc =>
                  match packStitches tl with
                  | Except.error e => Except.error e
                  | Except.ok btl => Except.ok (bx ++ bby ++ bc ++ btl)) =
            Except.error PyError.packError
          rw [packI32_eq hx.1 hx.2]
          show (match packI32 a.2.1 with
            | Except.error e => Except.error e
            | Except.ok bby =>
              match packI32 a.2.2 with
              | Except.error e => Except.error e
              | Except.ok bc =>
                match packStitches tl with
                | Except.error e => Except.error e
                | Except.ok btl => Except.ok (i32le a.1 ++ bby ++ bc ++ btl)) = _
          rw [packI32_bad hy]
      · show (match packI32 a.1 with
          | Except.error e => Except.error e
          | Except.ok bx =>
            match packI32 a.2.1 with
            | Except.error e => Except.error e
            | Except.ok bby =>
              match packI32 a.2.2 with
              | Except.error e => Except.error e
              | Except.ok bc =>
                match packStitches tl with
                | Except.error e => Except.error e
                | Except.ok btl => Except.ok (bx ++ bby ++ bc ++ btl)) =
          Except.error PyError.packError
        rw [packI32_bad hx]

theorem packStitches_stitchesBytes : ∀ (st : List (Int × Int × Int)) (sb : List Nat),
    packStitches st = .ok sb → sb = stitchesBytes st := by
  intro st
  induction st with
  | nil =>
    intro sb h
    injection h with h2
    exact h2.symm
  | cons a tl ih =>
    intro sb h
    replace h : (match packI32 a.1 with
      | Except.error e => Except.error e
      | Except.ok bx =>
        match packI32 a.2.1 with
        | Except.error e => Except.error e
        | Except.ok bby =>
          match packI32 a.2.2 with
          | Except.error e => Except.error e
          | Except.ok bc =>
            match packStitches tl with
            | Except.error e => Except.error e
            | Except.ok btl => Except.ok (bx ++ bby ++ bc ++ btl)) = Except.ok sb := h
    cases h1 : packI32 a.1 with
    | error e => rw [h1] at h; exact Except.noConfusion h
    | ok bx =>
      rw [h1] at h
      replace h : (match packI32 a.2.1 with
        | Except.error e => Except.error e
        | Except.ok bby =>
          match packI32 a.2.2 with
          | Except.error e => Except.error e
          | Except.ok bc =>
            match packStitches tl with
            | Except.error e => Except.error e
            | Except.ok btl => Except.ok (bx ++ bby ++ bc ++ btl)) = Except.ok sb := h
      cases h2 : packI32 a.2.1 with
      | error e => rw [h2] at h; exact Except.noConfusion h
      | ok bby =>
        rw [h2] at h
        replace h : (match packI32 a.2.2 with
          | Except.error e => Except.error e
          | Except.ok bc =>
            match packStitches tl with
            | Except.error e => Except.error e
            | Except.ok btl => Except.ok (bx ++ bby ++ bc ++ btl)) = Except.ok sb := h
        cases h3 : packI32 a.2.2 with
        | error e => rw [h3] at h; exact Except.noConfusion h
        | ok bc =>
          rw [h3] at h
          replace h : (match packStitches tl with
            | Except.error e => Except.error e
            | Except.ok btl => Except.ok (bx ++ bby ++ bc ++ btl)) = Except.ok sb := h
          cases h4 : packStitches tl with
          | error e => rw [h4] at h; exact Except.noConfusion h
          | ok btl =>
            rw [h4] at h
            replace h : Except.ok (bx ++ bby ++ bc ++ btl) = Except.ok sb := h
            injection h with h5
            obtain ⟨_, _, hbx⟩ := packI32_ok_elim h1
            obtain ⟨_, _, hby⟩ := packI32_ok_elim h2
            obtain ⟨_, _, hbc⟩ := packI32_ok_elim h3
            rw [← h5, hbx, hby, hbc, ih _ h4]
            rfl

/-! ## Length lower bounds for huge thread lists -/

theorem charUtf8_length_pos (c : Char) : 1 ≤ (charUtf8 c).length := by
  show 1 ≤ (if c.toNat < 128 then [c.toNat]
    else if c.toNat < 2048 then [192 + c.toNat / 64, 128 + c.toNat % 64]
    else if c.toNat < 65536 then
      [224 + c.toNat / 4096, 128 + c.toNat / 64 % 64, 128 + c.toNat % 64]
    else [240 + c.toNat / 262144, 128 + c.toNat / 4096 % 64,
      128 + c.toNat / 64 % 64, 128 + c.toNat % 64]).length
  split_ifs <;> simp

theorem utf8Encode_length_ge : ∀ (cs : List Char), cs.length ≤ (utf8Encode cs).length := by
  intro cs
  induction cs with
  | nil => exact Nat.le_refl 0
  | cons c r ih =>
    show (c :: r).length ≤ (charUtf8 c ++ utf8Encode r).length
    have := charUtf8_length_pos c
    simp only [List.length_append, List.length_cons]
    omega

theorem jsonListLength_ofList : ∀ (xs : List Json),
    jsonListLength (jsonListOfList xs) = xs.length := by
  intro xs
  induction xs with
  | nil => rfl
  | cons x tl ih =>
    show 1 + jsonListLength (jsonListOfList tl) = tl.length + 1
    rw [ih]
    omega

theorem dumpList_length_ge : ∀ (n : Nat) (l : JsonList), jsonListLength l ≤ n →
    threadObjsList l = true → jsonListLength l ≤ (dumpList l).length := by
  intro n
  induction n with
  | zero =>
    intro l hl _
    cases l with
    | nil => exact Nat.zero_le _
    | cons x tl =>
      exfalso
      have : jsonListLength (JsonList.cons x tl) = 1 + jsonListLength tl := rfl
      omega
  | succ m ih =>
    intro l hl hobjs
    cases l with
    | nil => exact Nat.zero_le _
    | cons x tl =>
      obtain ⟨kvs, rfl⟩ : ∃ kvs, x = Json.obj kvs := by
        cases x with
        | obj kvs => exact ⟨kvs, rfl⟩
        | null => exact Bool.noConfusion hobjs
        | bool b => exact Bool.noConfusion hobjs
        | num n2 => exact Bool.noConfusion hobjs
        | flt s2 => exact Bool.noConfusion hobjs
        | str s2 => exact Bool.noConfusion hobjs
        | arr xs2 => exact Bool.noConfusion hobjs
      replace hobjs : (scalarObj kvs && threadObjsList tl) = true := hobjs
      rw [Bool.and_eq_true] at hobjs
      obtain ⟨hx, htl⟩ := hobjs
      have hhead : 1 ≤ (dumpJson (Json.obj kvs)).length := by
        show 1 ≤ ('{' :: dumpObj kvs ++ ['}']).length
        simp
      cases tl with
      | nil =>
        have he : jsonListLength (JsonList.cons (Json.obj kvs) JsonList.nil) = 1 := rfl
        rw [he]
        exact hhead
      | cons y tl2 =>
        have harm : dumpList (JsonList.cons (Json.obj kvs) (JsonList.cons y tl2)) =
            dumpJson (Json.obj kvs) ++ ',' :: ' ' :: dumpList (JsonList.cons y tl2) := rfl
        have hlen1 : jsonListLength (JsonList.cons (Json.obj kvs) (JsonList.cons y tl2)) =
            1 + jsonListLength (JsonList.cons y tl2) := rfl
        have hmeas : jsonListLength (JsonList.cons y tl2) ≤ m := by omega
        have hrec := ih (JsonList.cons y tl2) hmeas htl
        rw [harm, hlen1]
        simp only [List.length_append, List.length_cons]
        omega

/-! ## The claims -/

/-- Claim C1: round-trip.  For every finite stitch list and thread list
(thread attributes taking the scalar JSON shapes pyembroidery stores:
null, booleans, integers, strings), whenever the encoder of read.py
produces container bytes, the decoder of write.py returns exactly the
original stitches and threads. -/
theorem c1_round_trip (stitches : List (Int × Int × Int)) (threads : List Thread)
    (out : List Nat) (hth : ∀ t ∈ threads, scalarThread t = true)
    (henc : embEncode stitches threads = .ok out) :
    embDecode out = .ok (stitches, threads) :=
  embDecode_embEncode hth henc

set_option maxRecDepth 16384 in
/-- Concrete instance of C1: the specification's end-to-end example,
stitches [(0,0,1),(10,20,0)] with one thread coloured ff0000 by Acme. -/
theorem c1_round_trip_witness :
    embDecode [2, 0, 0, 0, 0, 0, 0, 0, 0, 0, 0, 0, 1, 0, 0, 0, 10, 0, 0, 0, 20, 0, 0, 0, 0, 0,
      0, 0, 135, 0, 0, 0, 91, 123, 34, 104, 101, 120, 95, 99, 111, 108, 111, 114, 34, 58, 32, 34,
      102, 102, 48, 48, 48, 48, 34, 44, 32, 34, 100, 101, 115, 99, 114, 105, 112, 116, 105, 111,
      110, 34, 58, 32, 110, 117, 108, 108, 44, 32, 34, 99, 97, 116, 97, 108, 111, 103, 95, 110,
      117, 109, 98, 101, 114, 34, 58, 32, 110, 117, 108, 108, 44, 32, 34, 100, 101, 116, 97, 105,
      108, 115, 34, 58, 32, 110, 117, 108, 108, 44, 32, 34, 98, 114, 97, 110, 100, 34, 58, 32, 34,
      65, 99, 109, 101, 34, 44, 32, 34, 99, 104, 97, 114, 116, 34, 58, 32, 110, 117, 108, 108, 44,
      32, 34, 119, 101, 105, 103, 104, 116, 34, 58, 32, 110, 117, 108, 108, 125, 93] =
      .ok ([(0, 0, 1), (10, 20, 0)],
        [⟨Json.str "ff0000", Json.null, Json.null, Json.null, Json.str "Acme",
          Json.null, Json.null⟩]) :=
  c1_round_trip [(0, 0, 1), (10, 20, 0)]
    [⟨Json.str "ff0000", Json.null, Json.null, Json.null, Json.str "Acme", Json.null, Json.null⟩]
    _ (by decide) rfl

/-- Claim C2: truncation.  Any byte sequence shorter than
4 + 12 * declared_count + 4, where declared_count is the unsigned
little-endian integer in its first four bytes, decodes to a
truncated-input error and no other error kind. -/
theorem c2_truncation (bs : List Nat)
    (h : bs.length < 4 + 12 * declaredCount bs + 4) :
    embDecode bs = .error .truncatedInputError := by
  by_cases h4 : bs.length < 4
  · unfold embDecode
    rw [unpackU32_short h4]
  · obtain ⟨b0, b1, b2, b3, rest, rfl⟩ := four_bytes h4
    rw [show declaredCount (b0 :: b1 :: b2 :: b3 :: rest) =
        b0 + 256 * b1 + 65536 * b2 + 16777216 * b3 from rfl] at h
    simp only [List.length_cons] at h
    unfold embDecode
    rw [show unpackU32 (b0 :: b1 :: b2 :: b3 :: rest) =
        Except.ok (b0 + 256 * b1 + 65536 * b2 + 16777216 * b3, rest) from rfl]
    show (match readStitches (b0 + 256 * b1 + 65536 * b2 + 16777216 * b3) rest with
      | Except.error e => Except.error e
      | Except.ok (stitches, bs2) =>
        match unpackU32 bs2 with
        | Except.error e => Except.error e
        | Except.ok (threads_size, bs3) =>
          match decodeMetadata (bs3.take threads_size) with
          | Except.error e => Except.error e
          | Except.ok threads => Except.ok (stitches, threads)) =
      Except.error PyError.truncatedInputError
    by_cases h12 : rest.length < 12 * (b0 + 256 * b1 + 65536 * b2 + 16777216 * b3)
    · rw [readStitches_short h12]
    · obtain ⟨st, hst, hstl⟩ := readStitches_of_le (le_of_not_lt h12)
      rw [hst]
      show (match unpackU32
          (rest.drop (12 * (b0 + 256 * b1 + 65536 * b2 + 16777216 * b3))) with
        | Except.error e => Except.error e
        | Except.ok (threads_size, bs3) =>
          match decodeMetadata (bs3.take threads_size) with
          | Except.error e => Except.error e
          | Except.ok threads => Except.ok (st, threads)) =
        Except.error PyError.truncatedInputError
      rw [unpackU32_short (show
        (rest.drop (12 * (b0 + 256 * b1 + 65536 * b2 + 16777216 * b3))).length < 4 by
          rw [List.length_drop]; omega)]

/-- Concrete instance of C2: four header bytes declaring five stitches
and nothing after them. -/
theorem c2_truncation_witness :
    embDecode [5, 0, 0, 0] = .error .truncatedInputError :=
  c2_truncation [5, 0, 0, 0] (by decide)

/-- Counterexample to C3 as stated: the container with no stitches whose
two metadata bytes hold the JSON object text \x7b\x7d.  The top-level
JSON value is an object, not an array of objects, yet write.py raises
nothing: iterating the empty dict yields no keys and decoding succeeds
with an empty thread list. -/
theorem c3_counterexample :
    jsonOfBytes [123, 125] = some (Json.obj JsonObj.nil) ∧
    embDecode [0, 0, 0, 0, 2, 0, 0, 0, 123, 125] = .ok ([], []) :=
  ⟨rfl, rfl⟩

/-- Claim C3, corrected.  Over well-formed headers and stitch sections,
the metadata phase behaves as follows: bytes that are not valid UTF-8
JSON give MalformedMetadataError; a JSON value that Python cannot
iterate (null, booleans, numbers) gives TypeError, not
MalformedMetadataError; an array of objects decodes successfully; an
array with a non-object element gives AttributeError; an empty object
or empty string decodes successfully to an empty thread list; and a
nonempty object or nonempty string gives AttributeError, because the
iteration yields strings whose .get raises. -/
theorem c3_metadata_cases (N : Nat) (hN : N < 4294967296) (sb : List Nat)
    (hsb : sb.length = 12 * N) (meta : List Nat) (hM : meta.length < 4294967296) :
    ∃ st, st.length = N ∧
      (jsonOfBytes meta = none →
        embDecode (u32le N ++ sb ++ u32le meta.length ++ meta) =
          .error .malformedMetadataError) ∧
      (∀ j, jsonOfBytes meta = some j → notIterable j = true →
        embDecode (u32le N ++ sb ++ u32le meta.length ++ meta) = .error .typeError) ∧
      (∀ xs, jsonOfBytes meta = some (Json.arr xs) → (∀ x ∈ xs.toList, isObj x = true) →
        ∃ ths, embDecode (u32le N ++ sb ++ u32le meta.length ++ meta) = .ok (st, ths)) ∧
      (∀ xs, jsonOfBytes meta = some (Json.arr xs) → (∃ x ∈ xs.toList, isObj x = false) →
        embDecode (u32le N ++ sb ++ u32le meta.length ++ meta) = .error .attributeError) ∧
      (jsonOfBytes meta = some (Json.obj JsonObj.nil) →
        embDecode (u32le N ++ sb ++ u32le meta.length ++ meta) = .ok (st, [])) ∧
      (∀ k v kvs, jsonOfBytes meta = some (Json.obj (JsonObj.cons k v kvs)) →
        embDecode (u32le N ++ sb ++ u32le meta.length ++ meta) = .error .attributeError) ∧
      (jsonOfBytes meta = some (Json.str "") →
        embDecode (u32le N ++ sb ++ u32le meta.length ++ meta) = .ok (st, [])) ∧
      (∀ c cs, jsonOfBytes meta = some (Json.str (String.mk (c :: cs))) →
        embDecode (u32le N ++ sb ++ u32le meta.length ++ meta) = .error .attributeError) := by
  obtain ⟨st, hstlen, hdec⟩ := embDecode_layout N hN sb hsb
  have hC := hdec meta.length hM meta
  rw [List.take_length] at hC
  refine ⟨st, hstlen, ?_, ?_, ?_, ?_, ?_, ?_, ?_, ?_⟩
  · intro hnone
    rw [hC, decodeMetadata_none hnone]
  · intro j hsome hni
    rw [hC, decodeMetadata_some hsome, pyIterate_notIterable hni]
  · intro xs hsome hall
    obtain ⟨ths, hths⟩ := mapThreads_all_objs _ hall
    refine ⟨ths, ?_⟩
    rw [hC, decodeMetadata_some hsome]
    show (match mapThreads (JsonList.toList xs) with
      | Except.error e => Except.error e
      | Except.ok threads => Except.ok (st, threads)) = Except.ok (st, ths)
    rw [hths]
  · intro xs hsome hbad
    rw [hC, decodeMetadata_some hsome]
    show (match mapThreads (JsonList.toList xs) with
      | Except.error e => Except.error e
      | Except.ok threads => Except.ok (st, threads)) = Except.error PyError.attributeError
    rw [mapThreads_has_nonobj _ hbad]
  · intro hsome
    rw [hC, decodeMetadata_some hsome]
    rfl
  · intro k v kvs hsome
    rw [hC, decodeMetadata_some hsome]
    show (match mapThreads (Json.str k :: objKeysJson kvs) with
      | Except.error e => Except.error e
      | Except.ok threads => Except.ok (st, threads)) = Except.error PyError.attributeError
    rw [mapThreads_has_nonobj _ ⟨Json.str k, List.mem_cons_self _ _, rfl⟩]
  · intro hsome
    rw [hC, decodeMetadata_some hsome]
    rfl
  · intro c cs hsome
    rw [hC, decodeMetadata_some hsome]
    show (match mapThreads (Json.str (String.mk [c]) ::
        cs.map (fun c2 => Json.str (String.mk [c2]))) with
      | Except.error e => Except.error e
      | Except.ok threads => Except.ok (st, threads)) = Except.error PyError.attributeError
    rw [mapThreads_has_nonobj _ ⟨Json.str (String.mk [c]), List.mem_cons_self _ _, rfl⟩]

/-- Concrete instance of the corrected C3: metadata text null is valid
JSON but not iterable, and write.py surfaces TypeError, not
MalformedMetadataError. -/
theorem c3_metadata_cases_witness :
    embDecode (u32le 0 ++ [] ++ u32le 4 ++ [110, 117, 108, 108]) = .error .typeError := by
  obtain ⟨st, hlen, hcase⟩ := c3_metadata_cases 0 (by norm_num) [] rfl
    [110, 117, 108, 108] (by norm_num)
  exact hcase.2.1 Json.null rfl rfl

/-- Claim C4: size law.  A successful encode of N stitches with thread
metadata of M UTF-8 JSON bytes is exactly 8 + 12 * N + M bytes long. -/
theorem c4_size_law (stitches : List (Int × Int × Int)) (threads : List Thread)
    (out : List Nat) (h : embEncode stitches threads = .ok out) :
    out.length = 8 + 12 * stitches.length +
      (utf8Encode (json_dumps_threads threads)).length := by
  obtain ⟨sb, hpack, _, _, hout⟩ := embEncode_ok_elim h
  have hlen := (packStitches_read _ _ hpack).1
  rw [hout]
  simp only [List.length_append, u32le_length, hlen]
  omega

/-- Concrete instance of C4: one stitch and no threads, 22 bytes. -/
theorem c4_size_law_witness :
    ([1, 0, 0, 0, 1, 0, 0, 0, 254, 255, 255, 255, 3, 0, 0, 0, 2, 0, 0, 0, 91, 93] :
        List Nat).length =
      8 + 12 * List.length [((1 : Int), (-2 : Int), (3 : Int))] +
        (utf8Encode (json_dumps_threads [])).length :=
  c4_size_law [(1, -2, 3)] [] _ rfl

/-- Claim C5: byte layout.  A successful encode is the stitch count as
an unsigned little-endian 32-bit integer, the stitches in order as three
signed little-endian 32-bit integers each with no padding, the metadata
byte length as an unsigned little-endian 32-bit integer, and the JSON
bytes verbatim; the decoder's unpack operations invert those layouts at
the same widths and endianness. -/
theorem c5_byte_layout :
    (∀ (stitches : List (Int × Int × Int)) (threads : List Thread) (out : List Nat),
      embEncode stitches threads = .ok out →
      out = u32le stitches.length ++ stitchesBytes stitches ++
        u32le (utf8Encode (json_dumps_threads threads)).length ++
        utf8Encode (json_dumps_threads threads)) ∧
    (∀ (n : Nat) (rest : List Nat), n < 4294967296 →
      unpackU32 (u32le n ++ rest) = .ok (n, rest)) ∧
    (∀ (x : Int) (rest : List Nat), -2147483648 ≤ x → x < 2147483648 →
      unpackI32 (i32le x ++ rest) = .ok (x, rest)) := by
  refine ⟨?_, fun n rest hn => unpackU32_u32le n hn rest,
    fun x rest h1 h2 => unpackI32_i32le x h1 h2 rest⟩
  intro stitches threads out h
  obtain ⟨sb, hpack, _, _, hout⟩ := embEncode_ok_elim h
  rw [hout, packStitches_stitchesBytes _ _ hpack]

/-- Concrete instance of C5: the 22-byte container for one stitch and no
threads decomposes into the four layout sections, and the unpack
operations read back a u32 and an i32 in front of trailing bytes. -/
theorem c5_byte_layout_witness :
    ([1, 0, 0, 0, 1, 0, 0, 0, 254, 255, 255, 255, 3, 0, 0, 0, 2, 0, 0, 0, 91, 93] : List Nat) =
      u32le 1 ++ stitchesBytes [((1 : Int), (-2 : Int), (3 : Int))] ++ u32le 2 ++
        utf8Encode (json_dumps_threads []) ∧
    unpackU32 (u32le 7 ++ [9]) = .ok (7, [9]) ∧
    unpackI32 (i32le (-2) ++ [1]) = .ok (-2, [1]) := by
  refine ⟨?_, c5_byte_layout.2.1 7 [9] (by norm_num),
    c5_byte_layout.2.2 (-2) [1] (by norm_num) (by norm_num)⟩
  exact c5_byte_layout.1 [(1, -2, 3)] [] _ rfl

/-- Claim C6: missing-field tolerance.  dict_to_thread succeeds on every
JSON object; a thread field whose key the object lacks is the null
sentinel; and two objects agreeing on the seven known keys decode to the
same thread, so unknown keys have no effect. -/
theorem c6_missing_field_tolerance :
    (∀ kvs : JsonObj, dict_to_thread (.obj kvs) =
      .ok ⟨pyDictGet kvs "hex_color", pyDictGet kvs "description",
        pyDictGet kvs "catalog_number", pyDictGet kvs "details",
        pyDictGet kvs "brand", pyDictGet kvs "chart", pyDictGet kvs "weight"⟩) ∧
    (∀ (kvs : JsonObj) (k : String) (t : Thread), k ∈ sevenKeys → hasKey kvs k = false →
      dict_to_thread (.obj kvs) = .ok t → fieldOf t k = .null) ∧
    (∀ kvs kvs2 : JsonObj, (∀ k ∈ sevenKeys, pyDictGet kvs k = pyDictGet kvs2 k) →
      dict_to_thread (.obj kvs) = dict_to_thread (.obj kvs2)) := by
  refine ⟨fun kvs => rfl, ?_, ?_⟩
  · intro kvs k t hk habs ht
    injection ht with ht2
    subst ht2
    simp only [sevenKeys, List.mem_cons, List.not_mem_nil, or_false] at hk
    rcases hk with rfl | rfl | rfl | rfl | rfl | rfl | rfl
    · show pyDictGet kvs "hex_color" = Json.null
      exact pyDictGet_of_not_hasKey kvs _ habs
    · show pyDictGet kvs "description" = Json.null
      exact pyDictGet_of_not_hasKey kvs _ habs
    · show pyDictGet kvs "catalog_number" = Json.null
      exact pyDictGet_of_not_hasKey kvs _ habs
    · show pyDictGet kvs "details" = Json.null
      exact pyDictGet_of_not_hasKey kvs _ habs
    · show pyDictGet kvs "brand" = Json.null
      exact pyDictGet_of_not_hasKey kvs _ habs
    · show pyDictGet kvs "chart" = Json.null
      exact pyDictGet_of_not_hasKey kvs _ habs
    · show pyDictGet kvs "weight" = Json.null
      exact pyDictGet_of_not_hasKey kvs _ habs
  · intro kvs kvs2 hagree
    have e : ∀ kv : JsonObj, dict_to_thread (.obj kv) =
        .ok ⟨pyDictGet kv "hex_color", pyDictGet kv "description",
          pyDictGet kv "catalog_number", pyDictGet kv "details",
          pyDictGet kv "brand", pyDictGet kv "chart", pyDictGet kv "weight"⟩ :=
      fun _ => rfl
    rw [e kvs, e kvs2, hagree "hex_color" (by decide), hagree "description" (by decide),
      hagree "catalog_number" (by decide), hagree "details" (by decide),
      hagree "brand" (by decide), hagree "chart" (by decide), hagree "weight" (by decide)]

/-- Concrete instance of C6: the empty object decodes to the all-null
thread, its brand field is the null sentinel, and an object carrying
only an unknown key decodes like the empty object. -/
theorem c6_missing_field_tolerance_witness :
    dict_to_thread (Json.obj JsonObj.nil) =
      .ok ⟨Json.null, Json.null, Json.null, Json.null, Json.null, Json.null, Json.null⟩ ∧
    fieldOf ⟨Json.null, Json.null, Json.null, Json.null, Json.null, Json.null, Json.null⟩
      "brand" = Json.null ∧
    dict_to_thread (Json.obj (JsonObj.cons "unknown" (Json.str "x") JsonObj.nil)) =
      dict_to_thread (Json.obj JsonObj.nil) := by
  refine ⟨c6_missing_field_tolerance.1 JsonObj.nil, ?_, ?_⟩
  · exact c6_missing_field_tolerance.2.1 JsonObj.nil "brand" _ (by decide) rfl rfl
  · refine c6_missing_field_tolerance.2.2 _ _ ?_
    intro k hk
    simp only [sevenKeys, List.mem_cons, List.not_mem_nil, or_false] at hk
    rcases hk with rfl | rfl | rfl | rfl | rfl | rfl | rfl <;> rfl

/-- Claim C7: a key present with a null value decodes identically to the
key being absent: appending the binding k ↦ null to a dictionary that
lacks k leaves dict_to_thread's result unchanged. -/
theorem c7_null_equals_missing (d : JsonObj) (k : String) (hk : k ∈ sevenKeys)
    (habs : hasKey d k = false) :
    dict_to_thread (.obj (objSnoc d k .null)) = dict_to_thread (.obj d) := by
  have hall : ∀ k2, pyDictGet (objSnoc d k Json.null) k2 = pyDictGet d k2 := by
    intro k2
    rw [pyDictGet_objSnoc_eq d k Json.null k2]
    by_cases hkk : (k == k2) = true
    · rw [if_pos hkk]
      have hk2 : k = k2 := by simpa using hkk
      subst hk2
      exact (pyDictGet_of_not_hasKey d k habs).symm
    · rw [if_neg hkk]
  have e : ∀ kv : JsonObj, dict_to_thread (.obj kv) =
      .ok ⟨pyDictGet kv "hex_color", pyDictGet kv "description",
        pyDictGet kv "catalog_number", pyDictGet kv "details",
        pyDictGet kv "brand", pyDictGet kv "chart", pyDictGet kv "weight"⟩ :=
    fun _ => rfl
  rw [e (objSnoc d k Json.null), e d]
  simp only [hall]

/-- Concrete instance of C7: adding chart ↦ null to a dictionary that
only names a brand changes nothing. -/
theorem c7_null_equals_missing_witness :
    dict_to_thread (Json.obj (objSnoc (JsonObj.cons "brand" (Json.str "b") JsonObj.nil)
      "chart" Json.null)) =
      dict_to_thread (Json.obj (JsonObj.cons "brand" (Json.str "b") JsonObj.nil)) :=
  c7_null_equals_missing _ "chart" (by decide) rfl

/-- Claim C8: the encoder's convention is always-write-null.
thread_to_dict always produces an object whose key list is exactly the
seven known keys in order, and each key maps to the corresponding
attribute, null included, rather than being omitted. -/
theorem c8_always_seven_keys (t : Thread) :
    ∃ kvs, thread_to_dict t = .obj kvs ∧ objKeys kvs = sevenKeys ∧
      ∀ k ∈ sevenKeys, pyDictGet kvs k = fieldOf t k := by
  refine ⟨_, rfl, rfl, ?_⟩
  intro k hk
  simp only [sevenKeys, List.mem_cons, List.not_mem_nil, or_false] at hk
  rcases hk with rfl | rfl | rfl | rfl | rfl | rfl | rfl <;> rfl

/-- Concrete instance of C8 at a thread with two null attributes. -/
theorem c8_always_seven_keys_witness :
    ∃ kvs, thread_to_dict ⟨Json.str "ff0000", Json.null, Json.null, Json.null,
        Json.str "Acme", Json.null, Json.num 40⟩ = .obj kvs ∧
      objKeys kvs = sevenKeys ∧
      ∀ k ∈ sevenKeys, pyDictGet kvs k =
        fieldOf ⟨Json.str "ff0000", Json.null, Json.null, Json.null,
          Json.str "Acme", Json.null, Json.num 40⟩ k :=
  c8_always_seven_keys _

/-- Claim C9: trailing bytes are ignored.  Appending any byte suffix to
a well-formed container changes nothing: the decoder reads exactly the
declared counts and sizes and never inspects bytes after the declared
metadata blob. -/
theorem c9_trailing_bytes_ignored (N : Nat) (hN : N < 4294967296) (sb : List Nat)
    (hsb : sb.length = 12 * N) (meta : List Nat) (hM : meta.length < 4294967296)
    (extra : List Nat) (r : List (Int × Int × Int) × List Thread)
    (h : embDecode (u32le N ++ sb ++ u32le meta.length ++ meta) = .ok r) :
    embDecode ((u32le N ++ sb ++ u32le meta.length ++ meta) ++ extra) = .ok r := by
  obtain ⟨st, hstlen, hdec⟩ := embDecode_layout N hN sb hsb
  have h1 := hdec meta.length hM meta
  have h2 := hdec meta.length hM (meta ++ extra)
  have hassoc : (u32le N ++ sb ++ u32le meta.length ++ meta) ++ extra =
      u32le N ++ sb ++ u32le meta.length ++ (meta ++ extra) := by
    simp only [List.append_assoc]
  rw [hassoc, h2, List.take_left]
  rw [h1, List.take_length] at h
  exact h

/-- Concrete instance of C9: two junk bytes after the empty-dict
container do not change the decoded result. -/
theorem c9_trailing_bytes_ignored_witness :
    embDecode [0, 0, 0, 0, 2, 0, 0, 0, 123, 125, 9, 9] = .ok ([], []) :=
  c9_trailing_bytes_ignored 0 (by norm_num) [] rfl [123, 125] (by norm_num) [9, 9]
    ([], []) rfl

theorem embEncode_size_overflow (stitches : List (Int × Int × Int)) (threads : List Thread)
    (hall : ∀ s ∈ stitches, stitchInRange s) (hN : stitches.length < 4294967296)
    (hM : ¬ (utf8Encode (json_dumps_threads threads)).length < 4294967296) :
    embEncode stitches threads = .error .packError := by
  show (match packU32 stitches.length with
    | Except.error e => Except.error e
    | Except.ok countB =>
      match packStitches stitches with
      | Except.error e => Except.error e
      | Except.ok stitchB =>
        match packU32 (utf8Encode (json_dumps_threads threads)).length with
        | Except.error e => Except.error e
        | Except.ok sizeB =>
          Except.ok (countB ++ stitchB ++ sizeB ++
            utf8Encode (json_dumps_threads threads))) = Except.error PyError.packError
  rw [packU32_eq hN]
  show (match packStitches stitches with
    | Except.error e => Except.error e
    | Except.ok stitchB =>
      match packU32 (utf8Encode (json_dumps_threads threads)).length with
      | Except.error e => Except.error e
      | Except.ok sizeB =>
        Except.ok (u32le stitches.length ++ stitchB ++ sizeB ++
          utf8Encode (json_dumps_threads threads))) = Except.error PyError.packError
  rw [packStitches_ok_of_ranges _ hall]
  show (match packU32 (utf8Encode (json_dumps_threads threads)).length with
    | Except.error e => Except.error e
    | Except.ok sizeB =>
      Except.ok (u32le stitches.length ++ stitchesBytes stitches ++ sizeB ++
        utf8Encode (json_dumps_threads threads))) = Except.error PyError.packError
  rw [packU32_bad hM]

/-- Counterexample to C10 as stated: with every stitch component in
range (there are no stitches at all), encode still fails, because
struct.pack("I", threads_size) receives the byte length of the metadata
of 2^32 threads, which does not fit an unsigned 32-bit integer. -/
theorem c10_counterexample :
    embEncode []
      (List.replicate 4294967296
        ⟨Json.null, Json.null, Json.null, Json.null, Json.null, Json.null, Json.null⟩) =
      .error .packError := by
  generalize hgen : List.replicate 4294967296
    (⟨Json.null, Json.null, Json.null, Json.null, Json.null, Json.null, Json.null⟩ : Thread) = th
  have hscal : ∀ t ∈ th, scalarThread t = true := by
    intro t ht
    rw [← hgen] at ht
    rw [List.eq_of_mem_replicate ht]
    rfl
  have hobjs : threadObjsList (jsonListOfList (th.map thread_to_dict)) = true :=
    threadObjsList_of_scalar th hscal
  have h2 : jsonListLength (jsonListOfList (th.map thread_to_dict)) = 4294967296 := by
    rw [jsonListLength_ofList, List.length_map, ← hgen, List.length_replicate]
  have h3 : 4294967296 ≤ (dumpList (jsonListOfList (th.map thread_to_dict))).length := by
    have hge := dumpList_length_ge (jsonListLength (jsonListOfList (th.map thread_to_dict)))
      _ (Nat.le_refl _) hobjs
    omega
  have h4 : 4294967296 ≤ (json_dumps_threads th).length := by
    have he : json_dumps_threads th =
        '[' :: dumpList (jsonListOfList (th.map thread_to_dict)) ++ [']'] := rfl
    have hlen : ('[' :: dumpList (jsonListOfList (th.map thread_to_dict)) ++ [']']).length =
        (dumpList (jsonListOfList (th.map thread_to_dict))).length + 1 + 1 := by
      rw [List.length_append, List.length_cons, List.length_singleton]
    rw [he, hlen]
    omega
  have h5 : 4294967296 ≤ (utf8Encode (json_dumps_threads th)).length :=
    le_trans h4 (utf8Encode_length_ge _)
  have hM : ¬ (utf8Encode (json_dumps_threads th)).length < 4294967296 := by omega
  exact embEncode_size_overflow [] th (by intro s hs; cases hs) (by norm_num) hM

/-- Claim C10, corrected.  A stitch with a component outside the signed
32-bit range makes encode fail with the packing error rather than wrap
or truncate; and when every component is in range, the stitch count fits
an unsigned 32-bit integer, and the metadata byte length fits an
unsigned 32-bit integer, encode succeeds.  The last hypothesis cannot be
dropped: see the counterexample with 2^32 threads. -/
theorem c10_pack_range :
    (∀ (stitches : List (Int × Int × Int)) (threads : List Thread),
      (∃ s ∈ stitches, ¬ stitchInRange s) →
      embEncode stitches threads = .error .packError) ∧
    (∀ (stitches : List (Int × Int × Int)) (threads : List Thread),
      (∀ s ∈ stitches, stitchInRange s) →
      stitches.length < 4294967296 →
      (utf8Encode (json_dumps_threads threads)).length < 4294967296 →
      ∃ out, embEncode stitches threads = .ok out) := by
  constructor
  · intro stitches threads hbad
    by_cases hN : stitches.length < 4294967296
    · show (match packU32 stitches.length with
        | Except.error e => Except.error e
        | Except.ok countB =>
          match packStitches stitches with
          | Except.error e => Except.error e
          | Except.ok stitchB =>
            match packU32 (utf8Encode (json_dumps_threads threads)).length with
            | Except.error e => Except.error e
            | Except.ok sizeB =>
              Except.ok (countB ++ stitchB ++ sizeB ++
                utf8Encode (json_dumps_threads threads))) = Except.error PyError.packError
      rw [packU32_eq hN]
      show (match packStitches stitches with
        | Except.error e => Except.error e
        | Except.ok stitchB =>
          match packU32 (utf8Encode (json_dumps_threads threads)).length with
          | Except.error e => Except.error e
          | Except.ok sizeB =>
            Except.ok (u32le stitches.length ++ stitchB ++ sizeB ++
              utf8Encode (json_dumps_threads threads))) = Except.error PyError.packError
      rw [packStitches_bad _ hbad]
    · show (match packU32 stitches.length with
        | Except.error e => Except.error e
        | Except.ok countB =>
          match packStitches stitches with
          | Except.error e => Except.error e
          | Except.ok stitchB =>
            match packU32 (utf8Encode (json_dumps_threads threads)).length with
            | Except.error e => Except.error e
            | Except.ok sizeB =>
              Except.ok (countB ++ stitchB ++ sizeB ++
                utf8Encode (json_dumps_threads threads))) = Except.error PyError.packError
      rw [packU32_bad hN]
  · intro stitches threads hall hN hM
    refine ⟨u32le stitches.length ++ stitchesBytes stitches ++
      u32le (utf8Encode (json_dumps_threads threads)).length ++
      utf8Encode (json_dumps_threads threads), ?_⟩
    show (match packU32 stitches.length with
      | Except.error e => Except.error e
      | Except.ok countB =>
        match packStitches stitches with
        | Except.error e => Except.error e
        | Except.ok stitchB =>
          match packU32 (utf8Encode (json_dumps_threads threads)).length with
          | Except.error e => Except.error e
          | Except.ok sizeB =>
            Except.ok (countB ++ stitchB ++ sizeB ++
              utf8Encode (json_dumps_threads threads))) = _
    rw [packU32_eq hN]
    show (match packStitches stitches with
      | Except.error e => Except.error e
      | Except.ok stitchB =>
        match packU32 (utf8Encode (json_dumps_threads threads)).length with
        | Except.error e => Except.error e
        | Except.ok sizeB =>
          Except.ok (u32le stitches.length ++ stitchB ++ sizeB ++
            utf8Encode (json_dumps_threads threads))) = _
    rw [packStitches_ok_of_ranges _ hall]
    show (match packU32 (utf8Encode (json_dumps_threads threads)).length with
      | Except.error e => Except.error e
      | Except.ok sizeB =>
        Except.ok (u32le stitches.length ++ stitchesBytes stitches ++ sizeB ++
          utf8Encode (json_dumps_threads threads))) = _
    rw [packU32_eq hM]

/-- Concrete instance of the corrected C10: an x coordinate of 2^31
aborts encoding with the packing error, while an in-range stitch list
encodes successfully. -/
theorem c10_pack_range_witness :
    embEncode [((2147483648 : Int), 0, 0)] [] = .error .packError ∧
    ∃ out, embEncode [((1 : Int), -2, 3)] [] = .ok out := by
  constructor
  · exact c10_pack_range.1 [(2147483648, 0, 0)] []
      ⟨(2147483648, 0, 0), List.mem_cons_self _ _, by decide⟩
  · exact c10_pack_range.2 [(1, -2, 3)] [] (by decide) (by decide) (by decide)

end EmbroideryTools
